import Mathlib

/-!
Verification of the payment-cancellation script (`cancel_payments.py`).

The progress ledger is a CSV file with columns
`order_id, payment_id, requires_cancellation, cancellation_attempted,
cancellation_status, error_message, timestamp`.  The script loads the whole
file into a dict keyed by `order_id`, mutates it, and rewrites the whole
file (QUOTE_ALL quoting, `\r\n` line terminator, rows sorted by key).

The embedding models the file as `Option String` (`none` = the file does
not exist), records as `Record`, the in-memory dict as a `List Record`
keyed by `order_id` in insertion order, and fallible operations
(Python exceptions) as `Except String`.

`save_orders_to_csv` opens its file with `newline=''`, so the `\r\n`
terminators (and any `\r` inside field text) are written verbatim; but
`load_orders_from_csv` opens with a plain `open(csv_filename, 'r', ...)`,
so Python's universal-newline mode translates every `\r\n` and lone `\r`
of the raw text — including inside quoted fields — to `\n` before the
`csv` reader sees it.  The model applies the same translation
(`translateNewlines`) on read.
-/

set_option maxRecDepth 4000

namespace CancelPayments

/-- One row of the progress CSV, as the dict that `load_orders_from_csv`
builds per order.  `payment_id` is kept as a string (`""` when Python holds
`None` or `''`; the CSV writer serialises both as the empty field).
`requires_cancellation` is `True`/`False`/`None` in Python, hence
`Option Bool`. -/
structure Record where
  order_id : String
  payment_id : String
  requires_cancellation : Option Bool
  cancellation_attempted : Bool
  cancellation_status : String
  error_message : String
  timestamp : String
deriving DecidableEq, Repr

/-! ### CSV serialisation (Python `csv` module, QUOTE_ALL dialect)

`save_orders_to_csv` writes with `csv.DictWriter(..., quoting=csv.QUOTE_ALL)`:
every field is wrapped in double quotes, embedded quotes are doubled, fields
are comma-separated and rows end in `\r\n`.  `load_orders_from_csv` reads with
`csv.DictReader`: the first row is the header, fields may be quoted (with
`""` as an escaped quote) or bare (ending at `,`, `\r` or `\n`). -/

/-- Double every quote character (the QUOTE_ALL escaping of a field body). -/
def escapeQuotes : List Char → List Char
  | [] => []
  | c :: t => if c = '"' then '"' :: '"' :: escapeQuotes t else c :: escapeQuotes t

/-- A fully quoted CSV field. -/
def quoteField (s : String) : List Char :=
  '"' :: (escapeQuotes s.data ++ ['"'])

/-- Comma-separated fully quoted fields. -/
def renderFields : List String → List Char
  | [] => []
  | [f] => quoteField f
  | f :: t => quoteField f ++ ',' :: renderFields t

/-- One CSV row, terminated by `\r\n` (the `csv` module's default). -/
def renderRow (fs : List String) : List Char :=
  renderFields fs ++ ['\r', '\n']

def renderRows (rows : List (List String)) : List Char :=
  rows.foldr (fun row acc => renderRow row ++ acc) []

/-- Read the body of a quoted field: stops after the closing quote,
`""` stands for a literal quote.  Returns the field body and the rest of
the input.  An unterminated quote swallows the rest of the input, as the
Python reader does. -/
def parseQuoted : List Char → List Char × List Char
  | [] => ([], [])
  | c :: t =>
    if c = '"' then
      if t.head? = some '"' then
        ('"' :: (parseQuoted t.tail).1, (parseQuoted t.tail).2)
      else ([], t)
    else
      (c :: (parseQuoted t).1, (parseQuoted t).2)
termination_by cs => cs.length
decreasing_by
  all_goals simp [List.length_tail]
  all_goals omega

theorem parseQuoted_cons (c : Char) (t : List Char) :
    parseQuoted (c :: t) =
      if c = '"' then
        if t.head? = some '"' then
          ('"' :: (parseQuoted t.tail).1, (parseQuoted t.tail).2)
        else ([], t)
      else (c :: (parseQuoted t).1, (parseQuoted t).2) := by
  rw [parseQuoted.eq_def]

theorem parseQuoted_length : ∀ cs : List Char, (parseQuoted cs).2.length ≤ cs.length
  | [] => by simp [parseQuoted]
  | c :: t => by
    rw [parseQuoted]
    by_cases h : c = '"'
    · simp only [h, if_true]
      by_cases h2 : t.head? = some '"'
      · simp only [h2, if_pos rfl]
        have ih := parseQuoted_length t.tail
        have ht : t.tail.length ≤ t.length := by
          cases t <;> simp
        simpa using le_trans ih (by simpa using Nat.le_succ_of_le ht)
      · simp [h2]
    · simp only [h, if_false]
      have ih := parseQuoted_length t
      simpa using Nat.le_succ_of_le ih
termination_by cs => cs.length
decreasing_by
  · simp [List.length_tail]; omega
  · simp

/-- Read one field: a leading quote starts a quoted section, otherwise
characters are consumed until a separator (`,`, `\r`, `\n`).  Text following
a closing quote is appended to the field, as the Python reader does. -/
def readFieldChars : List Char → List Char × List Char
  | [] => ([], [])
  | c :: t =>
    if c = ',' ∨ c = '\r' ∨ c = '\n' then ([], c :: t)
    else if c = '"' then
      ((parseQuoted t).1 ++ (readFieldChars (parseQuoted t).2).1,
        (readFieldChars (parseQuoted t).2).2)
    else
      (c :: (readFieldChars t).1, (readFieldChars t).2)
termination_by cs => cs.length
decreasing_by
  all_goals first
    | (have hq := parseQuoted_length t
       simp
       omega)
    | simp

theorem readFieldChars_cons (c : Char) (t : List Char) :
    readFieldChars (c :: t) =
      if c = ',' ∨ c = '\r' ∨ c = '\n' then ([], c :: t)
      else if c = '"' then
        ((parseQuoted t).1 ++ (readFieldChars (parseQuoted t).2).1,
          (readFieldChars (parseQuoted t).2).2)
      else (c :: (readFieldChars t).1, (readFieldChars t).2) := by
  rw [readFieldChars.eq_def]

theorem readFieldChars_length : ∀ cs : List Char, (readFieldChars cs).2.length ≤ cs.length
  | [] => by simp [readFieldChars]
  | c :: t => by
    rw [readFieldChars]
    by_cases h : c = ',' ∨ c = '\r' ∨ c = '\n'
    · simp [h]
    · simp only [h, if_false]
      by_cases h2 : c = '"'
      · simp only [h2, if_pos rfl]
        have ih := readFieldChars_length (parseQuoted t).2
        have hp := parseQuoted_length t
        simpa using le_trans ih (Nat.le_succ_of_le hp)
      · simp only [h2, if_false]
        have ih := readFieldChars_length t
        simpa using Nat.le_succ_of_le ih
termination_by cs => cs.length
decreasing_by
  · have := parseQuoted_length t
    simp; omega
  · simp

/-- Read one CSV record (one logical row): fields separated by commas,
terminated by `\r\n`, a lone `\r` or `\n`, or the end of input. -/
def readRecordChars (cs : List Char) : List String × List Char :=
  let p := readFieldChars cs
  if p.2.head? = some ',' then
    let q := readRecordChars p.2.tail
    (String.mk p.1 :: q.1, q.2)
  else if p.2.head? = some '\r' ∧ p.2.tail.head? = some '\n' then
    ([String.mk p.1], p.2.tail.tail)
  else ([String.mk p.1], p.2.tail)
termination_by cs.length
decreasing_by
  have hle := readFieldChars_length cs
  rename_i h
  have hne : (readFieldChars cs).2 ≠ [] := by
    intro he
    rw [he] at h
    simp at h
  have := List.length_pos.mpr hne
  simp [List.length_tail]
  omega

theorem readRecordChars_length (cs : List Char) (hcs : cs ≠ []) :
    (readRecordChars cs).2.length < cs.length := by
  rw [readRecordChars]
  have hlen : 0 < cs.length := List.length_pos.mpr hcs
  have hle := readFieldChars_length cs
  by_cases h1 : (readFieldChars cs).2.head? = some ','
  · rw [if_pos h1]
    have hne : (readFieldChars cs).2 ≠ [] := by
      intro he
      rw [he] at h1
      simp at h1
    have hpos := List.length_pos.mpr hne
    by_cases ht : (readFieldChars cs).2.tail = []
    · rw [ht]
      simp [readRecordChars, readFieldChars]
      omega
    · have ih := readRecordChars_length (readFieldChars cs).2.tail ht
      have htl : (readFieldChars cs).2.tail.length < (readFieldChars cs).2.length := by
        simp [List.length_tail]
        omega
      simpa using by omega
  · rw [if_neg h1]
    have htl : (readFieldChars cs).2.tail.length ≤ (readFieldChars cs).2.length := by
      simp [List.length_tail]
    by_cases h2 : (readFieldChars cs).2.head? = some '\r' ∧ (readFieldChars cs).2.tail.head? = some '\n'
    · rw [if_pos h2]
      have : (readFieldChars cs).2.tail.tail.length ≤ (readFieldChars cs).2.tail.length := by
        simp [List.length_tail]
      simpa using by omega
    · rw [if_neg h2]
      simpa using by omega
termination_by cs.length
decreasing_by
  have hle2 := readFieldChars_length cs
  have hne : (readFieldChars cs).2 ≠ [] := by
    intro he
    rw [he] at h1
    simp at h1
  have := List.length_pos.mpr hne
  simp [List.length_tail]
  omega

/-- All records of a character stream. -/
def parseRows : List Char → List (List String)
  | [] => []
  | c :: t =>
    let q := readRecordChars (c :: t)
    q.1 :: parseRows q.2
termination_by cs => cs.length
decreasing_by
  have := readRecordChars_length (c :: t) (by simp)
  simpa using this

theorem stringMk_data (s : String) : String.mk s.data = s := rfl

/-! ### Round-trip of the character-level CSV format -/

theorem parseQuoted_escape (s rest : List Char) (h : rest.head? ≠ some '"') :
    parseQuoted (escapeQuotes s ++ '"' :: rest) = (s, rest) := by
  induction s with
  | nil =>
    simp only [escapeQuotes, List.nil_append]
    rw [parseQuoted_cons]
    rw [if_pos rfl, if_neg (by simpa using h)]
  | cons a s ih =>
    by_cases ha : a = '"'
    · subst ha
      simp only [escapeQuotes, if_true, reduceIte, List.cons_append]
      rw [parseQuoted_cons]
      rw [if_pos rfl]
      rw [if_pos (by simp)]
      simp [ih]
    · simp only [escapeQuotes, if_neg ha, List.cons_append]
      rw [parseQuoted_cons]
      rw [if_neg ha]
      simp [ih]

theorem readFieldChars_quoted (s : String) (rest : List Char)
    (h : rest = [] ∨ rest.head? = some ',' ∨ rest.head? = some '\r' ∨
      rest.head? = some '\n') :
    readFieldChars (quoteField s ++ rest) = (s.data, rest) := by
  have hq : quoteField s ++ rest = '"' :: (escapeQuotes s.data ++ '"' :: rest) := by
    simp [quoteField]
  rw [hq, readFieldChars]
  rw [if_neg (by decide)]
  rw [if_pos rfl]
  have hh : rest.head? ≠ some '"' := by
    rcases h with h | h | h | h
    · simp [h]
    all_goals (rw [h]; decide)
  rw [parseQuoted_escape s.data rest hh]
  have hr : readFieldChars rest = ([], rest) := by
    rcases h with h | h | h | h
    · simp [h, readFieldChars]
    all_goals
      (obtain ⟨d, t, rfl⟩ : ∃ d t, rest = d :: t := by
        cases rest with
        | nil => simp at h
        | cons d t => exact ⟨d, t, rfl⟩)
    all_goals
      simp only [List.head?_cons, Option.some.injEq] at h
    all_goals
      (subst h; rw [readFieldChars_cons, if_pos (by simp)])
  rw [hr]
  simp

theorem readRecordChars_render (fs : List String) (hfs : fs ≠ []) (rest : List Char) :
    readRecordChars (renderRow fs ++ rest) = (fs, rest) := by
  induction fs with
  | nil => exact absurd rfl hfs
  | cons f fs ih =>
    cases fs with
    | nil =>
      have hrow : renderRow [f] ++ rest = quoteField f ++ ('\r' :: '\n' :: rest) := by
        simp [renderRow, renderFields]
      rw [hrow, readRecordChars]
      rw [readFieldChars_quoted f _ (by simp)]
      simp [stringMk_data]
    | cons g gs =>
      have hrow : renderRow (f :: g :: gs) ++ rest =
          quoteField f ++ (',' :: (renderRow (g :: gs) ++ rest)) := by
        simp [renderRow, renderFields]
      rw [hrow, readRecordChars]
      rw [readFieldChars_quoted f _ (by simp)]
      simp only [List.head?_cons, List.tail_cons, if_pos rfl]
      rw [ih (by simp)]
      simp [stringMk_data]

theorem parseRows_ne_nil (cs : List Char) (h : cs ≠ []) :
    parseRows cs = (readRecordChars cs).1 :: parseRows (readRecordChars cs).2 := by
  cases cs with
  | nil => exact absurd rfl h
  | cons c t => rw [parseRows]

theorem parseRows_renderRows (rows : List (List String)) (h : ∀ row ∈ rows, row ≠ []) :
    parseRows (renderRows rows) = rows := by
  induction rows with
  | nil => simp [renderRows, parseRows]
  | cons row rows ih =>
    have hrow : row ≠ [] := h row (by simp)
    have hne : renderRows (row :: rows) ≠ [] := by
      have : renderRows (row :: rows) = renderRow row ++ renderRows rows := rfl
      rw [this]
      cases row <;> simp [renderRow, renderFields, quoteField]
    rw [parseRows_ne_nil _ hne]
    have : renderRows (row :: rows) = renderRow row ++ renderRows rows := rfl
    rw [this, readRecordChars_render row hrow (renderRows rows)]
    simp only []
    rw [ih (fun r hr => h r (by simp [hr]))]

/-! ### Universal-newline translation on read

`load_orders_from_csv` opens its file without `newline=''`, so Python
translates `\r\n` and lone `\r` to `\n` everywhere in the raw text before
the `csv` reader parses it. -/

/-- Python's universal-newline translation: `\r\n` and lone `\r` become
`\n`. -/
def translateNewlines : List Char → List Char
  | [] => []
  | [c] => [if c = '\r' then '\n' else c]
  | c :: d :: t =>
    if c = '\r' then
      if d = '\n' then '\n' :: translateNewlines t
      else '\n' :: translateNewlines (d :: t)
    else c :: translateNewlines (d :: t)

theorem translateNewlines_cons_ne (c : Char) (t : List Char) (hc : c ≠ '\r') :
    translateNewlines (c :: t) = c :: translateNewlines t := by
  cases t with
  | nil => simp [translateNewlines, hc]
  | cons d t => simp [translateNewlines, hc]

theorem translateNewlines_crlf (t : List Char) :
    translateNewlines ('\r' :: '\n' :: t) = '\n' :: translateNewlines t := by
  simp [translateNewlines]

theorem translateNewlines_cr (t : List Char) (h : t.head? ≠ some '\n') :
    translateNewlines ('\r' :: t) = '\n' :: translateNewlines t := by
  cases t with
  | nil => simp [translateNewlines]
  | cons d t =>
    have hd : d ≠ '\n' := by
      intro he
      exact h (by rw [he]; rfl)
    simp [translateNewlines, hd]

theorem translateNewlines_append_clean (s t : List Char) (hs : '\r' ∉ s) :
    translateNewlines (s ++ t) = s ++ translateNewlines t := by
  induction s with
  | nil => simp
  | cons c s ih =>
    have hc : c ≠ '\r' := by
      intro he
      exact hs (by rw [he]; exact List.mem_cons_self _ _)
    rw [List.cons_append, translateNewlines_cons_ne c _ hc,
      ih (fun hm => hs (List.mem_cons_of_mem c hm))]
    rfl

theorem translateNewlines_eq_self (s : List Char) (hs : '\r' ∉ s) :
    translateNewlines s = s := by
  have h := translateNewlines_append_clean s [] hs
  simpa [translateNewlines] using h

theorem translateNewlines_no_cr : ∀ cs : List Char, '\r' ∉ translateNewlines cs
  | [] => by simp [translateNewlines]
  | [c] => by
    intro hm
    rw [show translateNewlines [c] = [if c = '\r' then '\n' else c] from rfl] at hm
    by_cases hc : c = '\r'
    · rw [if_pos hc] at hm
      exact absurd (List.mem_singleton.mp hm) (by decide)
    · rw [if_neg hc] at hm
      exact hc (List.mem_singleton.mp hm).symm
  | c :: d :: t => by
    by_cases hc : c = '\r'
    · subst hc
      by_cases hd : d = '\n'
      · subst hd
        rw [translateNewlines_crlf]
        intro hm
        rcases List.mem_cons.mp hm with h1 | h1
        · exact absurd h1.symm (by decide)
        · exact translateNewlines_no_cr t h1
      · rw [translateNewlines_cr (d :: t) (by simpa using hd)]
        intro hm
        rcases List.mem_cons.mp hm with h1 | h1
        · exact absurd h1.symm (by decide)
        · exact translateNewlines_no_cr (d :: t) h1
    · rw [translateNewlines_cons_ne c _ hc]
      intro hm
      rcases List.mem_cons.mp hm with h1 | h1
      · exact hc h1.symm
      · exact translateNewlines_no_cr (d :: t) h1

theorem translateNewlines_ne_nil : ∀ cs : List Char, cs ≠ [] →
    translateNewlines cs ≠ []
  | [], h => absurd rfl h
  | [c], _ => by simp [translateNewlines]
  | c :: d :: t, _ => by
    by_cases hc : c = '\r'
    · subst hc
      by_cases hd : d = '\n'
      · subst hd
        rw [translateNewlines_crlf]
        simp
      · rw [translateNewlines_cr (d :: t) (by simpa using hd)]
        simp
    · rw [translateNewlines_cons_ne c _ hc]
      simp

theorem lf_mem_translateNewlines : ∀ cs : List Char, '\r' ∈ cs →
    '\n' ∈ translateNewlines cs
  | [], h => absurd h (by simp)
  | [c], h => by
    have hc : c = '\r' := (List.mem_singleton.mp h).symm
    simp [translateNewlines, hc]
  | c :: d :: t, h => by
    by_cases hc : c = '\r'
    · subst hc
      by_cases hd : d = '\n'
      · subst hd
        rw [translateNewlines_crlf]
        exact List.mem_cons_self _ _
      · rw [translateNewlines_cr (d :: t) (by simpa using hd)]
        exact List.mem_cons_self _ _
    · rw [translateNewlines_cons_ne c _ hc]
      have hm : '\r' ∈ d :: t := by
        rcases List.mem_cons.mp h with h1 | h1
        · exact absurd h1.symm hc
        · exact h1
      exact List.mem_cons_of_mem c (lf_mem_translateNewlines (d :: t) hm)

/-- Universal-newline translation at the `String` level. -/
def trStr (s : String) : String := String.mk (translateNewlines s.data)

theorem trStr_eq_self {s : String} (hs : '\r' ∉ s.data) : trStr s = s := by
  unfold trStr
  rw [translateNewlines_eq_self s.data hs]

theorem trStr_idem (s : String) : trStr (trStr s) = trStr s :=
  trStr_eq_self (translateNewlines_no_cr s.data)

theorem trStr_ne_empty {s : String} (hs : s ≠ "") : trStr s ≠ "" := by
  intro h
  apply hs
  rw [String.ext_iff] at h ⊢
  have h2 : translateNewlines s.data = [] := h
  by_contra hne
  exact translateNewlines_ne_nil s.data (by simpa using hne) h2

/-- A string whose translation has no `\n` was stored without `\r`, hence
came back verbatim. -/
theorem trStr_eq_of_no_lf {s t : String} (h : trStr s = t)
    (hlf : '\n' ∉ t.data) : s = t := by
  by_cases hcr : '\r' ∈ s.data
  · exfalso
    apply hlf
    rw [← h]
    exact lf_mem_translateNewlines s.data hcr
  · rw [← h, trStr_eq_self hcr]

/-! ### The translated form of rendered CSV text

After translation, the `\r\n` row terminators written by the QUOTE_ALL
writer become `\n`, and every field body comes back with its own `\r\n`
and `\r` turned into `\n`. -/

/-- One CSV row with the post-translation `\n` terminator. -/
def renderRowLF (fs : List String) : List Char :=
  renderFields fs ++ ['\n']

def renderRowsLF (rows : List (List String)) : List Char :=
  rows.foldr (fun row acc => renderRowLF row ++ acc) []

theorem escapeQuotes_cons (c : Char) (t : List Char) :
    escapeQuotes (c :: t) =
      if c = '"' then '"' :: '"' :: escapeQuotes t else c :: escapeQuotes t := rfl

theorem translate_escape : ∀ (s rest : List Char),
    translateNewlines (escapeQuotes s ++ '"' :: rest) =
      escapeQuotes (translateNewlines s) ++ '"' :: translateNewlines rest
  | [], rest => by
    show translateNewlines ('"' :: rest) =
      escapeQuotes (translateNewlines []) ++ '"' :: translateNewlines rest
    rw [translateNewlines_cons_ne '"' rest (by decide)]
    rfl
  | [c], rest => by
    by_cases hq : c = '"'
    · subst hq
      show translateNewlines ('"' :: '"' :: '"' :: rest) =
        escapeQuotes (translateNewlines ['"']) ++ '"' :: translateNewlines rest
      rw [show translateNewlines ['"'] = ['"'] from rfl,
        translateNewlines_cons_ne '"' ('"' :: '"' :: rest) (by decide),
        translateNewlines_cons_ne '"' ('"' :: rest) (by decide),
        translateNewlines_cons_ne '"' rest (by decide)]
      rfl
    · by_cases hr : c = '\r'
      · subst hr
        show translateNewlines ('\r' :: '"' :: rest) =
          escapeQuotes (translateNewlines ['\r']) ++ '"' :: translateNewlines rest
        rw [show translateNewlines ['\r'] = ['\n'] from rfl,
          translateNewlines_cr ('"' :: rest)
            (by intro h; exact absurd (Option.some.inj h) (by decide)),
          translateNewlines_cons_ne '"' rest (by decide)]
        rfl
      · rw [escapeQuotes_cons c [], if_neg hq]
        rw [show ((c :: escapeQuotes []) ++ '"' :: rest : List Char) =
          c :: '"' :: rest from rfl]
        rw [show translateNewlines [c] = [if c = '\r' then '\n' else c] from rfl,
          if_neg hr,
          translateNewlines_cons_ne c ('"' :: rest) hr,
          translateNewlines_cons_ne '"' rest (by decide),
          escapeQuotes_cons c [], if_neg hq]
        rfl
  | c :: d :: s, rest => by
    by_cases hc : c = '\r'
    · subst hc
      by_cases hd : d = '\n'
      · subst hd
        rw [escapeQuotes_cons '\r' ('\n' :: s), if_neg (by decide),
          escapeQuotes_cons '\n' s, if_neg (by decide)]
        rw [show (('\r' :: '\n' :: escapeQuotes s) ++ '"' :: rest : List Char) =
          '\r' :: '\n' :: (escapeQuotes s ++ '"' :: rest) from rfl]
        rw [translateNewlines_crlf (escapeQuotes s ++ '"' :: rest),
          translate_escape s rest, translateNewlines_crlf s,
          escapeQuotes_cons '\n' (translateNewlines s), if_neg (by decide)]
        rfl
      · rw [escapeQuotes_cons '\r' (d :: s), if_neg (by decide)]
        rw [show (('\r' :: escapeQuotes (d :: s)) ++ '"' :: rest : List Char) =
          '\r' :: (escapeQuotes (d :: s) ++ '"' :: rest) from rfl]
        have hhead : (escapeQuotes (d :: s) ++ '"' :: rest).head? ≠ some '\n' := by
          rw [escapeQuotes_cons d s]
          by_cases hq : d = '"'
          · rw [if_pos hq, List.cons_append, List.head?_cons]
            intro h
            exact absurd (Option.some.inj h) (by decide)
          · rw [if_neg hq, List.cons_append, List.head?_cons]
            intro h
            exact hd (Option.some.inj h)
        rw [translateNewlines_cr (escapeQuotes (d :: s) ++ '"' :: rest) hhead,
          translate_escape (d :: s) rest,
          translateNewlines_cr (d :: s) (by simpa using hd),
          escapeQuotes_cons '\n' (translateNewlines (d :: s)), if_neg (by decide)]
        rfl
    · by_cases hq : c = '"'
      · subst hq
        rw [escapeQuotes_cons '"' (d :: s), if_pos rfl]
        rw [show (('"' :: '"' :: escapeQuotes (d :: s)) ++ '"' :: rest : List Char) =
          '"' :: '"' :: (escapeQuotes (d :: s) ++ '"' :: rest) from rfl]
        rw [translateNewlines_cons_ne '"'
            ('"' :: (escapeQuotes (d :: s) ++ '"' :: rest)) (by decide),
          translateNewlines_cons_ne '"' (escapeQuotes (d :: s) ++ '"' :: rest) (by decide),
          translate_escape (d :: s) rest,
          translateNewlines_cons_ne '"' (d :: s) (by decide),
          escapeQuotes_cons '"' (translateNewlines (d :: s)), if_pos rfl]
        rfl
      · rw [escapeQuotes_cons c (d :: s), if_neg hq]
        rw [show ((c :: escapeQuotes (d :: s)) ++ '"' :: rest : List Char) =
          c :: (escapeQuotes (d :: s) ++ '"' :: rest) from rfl]
        rw [translateNewlines_cons_ne c (escapeQuotes (d :: s) ++ '"' :: rest) hc,
          translate_escape (d :: s) rest,
          translateNewlines_cons_ne c (d :: s) hc,
          escapeQuotes_cons c (translateNewlines (d :: s)), if_neg hq]
        rfl
termination_by s rest => s.length

theorem translate_quoteField (s : String) (rest : List Char) :
    translateNewlines (quoteField s ++ rest) =
      quoteField (trStr s) ++ translateNewlines rest := by
  have h1 : quoteField s ++ rest = '"' :: (escapeQuotes s.data ++ '"' :: rest) := by
    simp [quoteField]
  rw [h1, translateNewlines_cons_ne '"' _ (by decide), translate_escape s.data rest]
  simp [quoteField, trStr]

theorem translate_renderFields : ∀ (fs : List String) (rest : List Char),
    translateNewlines (renderFields fs ++ rest) =
      renderFields (fs.map trStr) ++ translateNewlines rest
  | [], rest => by simp [renderFields]
  | [f], rest => by
    simp only [renderFields, List.map_cons, List.map_nil]
    exact translate_quoteField f rest
  | f :: g :: t, rest => by
    show translateNewlines ((quoteField f ++ ',' :: renderFields (g :: t)) ++ rest) = _
    rw [List.append_assoc]
    rw [show ((',' :: renderFields (g :: t)) ++ rest : List Char) =
      ',' :: (renderFields (g :: t) ++ rest) from rfl]
    rw [translate_quoteField f (',' :: (renderFields (g :: t) ++ rest)),
      translateNewlines_cons_ne ',' (renderFields (g :: t) ++ rest) (by decide),
      translate_renderFields (g :: t) rest]
    simp [renderFields, List.append_assoc]

theorem translate_renderRow (fs : List String) (rest : List Char) :
    translateNewlines (renderRow fs ++ rest) =
      renderRowLF (fs.map trStr) ++ translateNewlines rest := by
  show translateNewlines ((renderFields fs ++ ['\r', '\n']) ++ rest) = _
  rw [List.append_assoc]
  rw [show (['\r', '\n'] : List Char) ++ rest = '\r' :: '\n' :: rest from rfl]
  rw [translate_renderFields fs _, translateNewlines_crlf]
  simp [renderRowLF]

theorem translate_renderRows : ∀ rows : List (List String),
    translateNewlines (renderRows rows) =
      renderRowsLF (rows.map (List.map trStr))
  | [] => by simp [renderRows, renderRowsLF, translateNewlines]
  | row :: rows => by
    show translateNewlines (renderRow row ++ renderRows rows) = _
    rw [translate_renderRow row _, translate_renderRows rows]
    rfl

/-! ### Parsing the translated (LF-terminated) form -/

theorem readRecordChars_renderLF (fs : List String) (hfs : fs ≠ [])
    (rest : List Char) :
    readRecordChars (renderRowLF fs ++ rest) = (fs, rest) := by
  induction fs with
  | nil => exact absurd rfl hfs
  | cons f fs ih =>
    cases fs with
    | nil =>
      have hrow : renderRowLF [f] ++ rest = quoteField f ++ ('\n' :: rest) := by
        simp [renderRowLF, renderFields]
      rw [hrow, readRecordChars]
      rw [readFieldChars_quoted f _ (by simp)]
      simp [stringMk_data]
    | cons g gs =>
      have hrow : renderRowLF (f :: g :: gs) ++ rest =
          quoteField f ++ (',' :: (renderRowLF (g :: gs) ++ rest)) := by
        simp [renderRowLF, renderFields]
      rw [hrow, readRecordChars]
      rw [readFieldChars_quoted f _ (by simp)]
      simp only [List.head?_cons, List.tail_cons, if_pos rfl]
      rw [ih (by simp)]
      simp [stringMk_data]

theorem parseRows_renderRowsLF (rows : List (List String))
    (h : ∀ row ∈ rows, row ≠ []) :
    parseRows (renderRowsLF rows) = rows := by
  induction rows with
  | nil => simp [renderRowsLF, parseRows]
  | cons row rows ih =>
    have hrow : row ≠ [] := h row (by simp)
    have hne : renderRowsLF (row :: rows) ≠ [] := by
      have : renderRowsLF (row :: rows) = renderRowLF row ++ renderRowsLF rows := rfl
      rw [this]
      cases row <;> simp [renderRowLF, renderFields, quoteField]
    rw [parseRows_ne_nil _ hne]
    have : renderRowsLF (row :: rows) = renderRowLF row ++ renderRowsLF rows := rfl
    rw [this, readRecordChars_renderLF row hrow (renderRowsLF rows)]
    simp only []
    rw [ih (fun r hr => h r (by simp [hr]))]

/-! ### Records to CSV rows and back -/

/-- Python writes booleans through `str`: `True` / `False`. -/
def renderBool (b : Bool) : String := if b then "True" else "False"

/-- `requires_cancellation` may be `True`, `False` or `None`; `csv` writes
`None` as the empty field. -/
def renderReq : Option Bool → String
  | none => ""
  | some true => "True"
  | some false => "False"

/-- The fixed field order of `save_orders_to_csv`. -/
def csvHeader : List String :=
  ["order_id", "payment_id", "requires_cancellation", "cancellation_attempted",
   "cancellation_status", "error_message", "timestamp"]

def recToRow (r : Record) : List String :=
  [r.order_id, r.payment_id, renderReq r.requires_cancellation,
   renderBool r.cancellation_attempted, r.cancellation_status,
   r.error_message, r.timestamp]

/-- `row['requires_cancellation'] if ... in ['True','False'] else None`,
then compared with `== 'True'`. -/
def parseReq (s : String) : Option Bool :=
  if s = "True" then some true else if s = "False" then some false else none

/-- `row[name]` on the dict `csv.DictReader` builds by zipping the header
with a data row; a missing key raises `KeyError`. -/
def requireCol (header row : List String) (name : String) : Except String String :=
  match (header.zip row).lookup name with
  | some v => .ok v
  | none => .error ("KeyError: " ++ name)

/-- One loaded row of `load_orders_from_csv` (the body of its `for` loop).
The Python loop reads three columns eagerly and stores the rest verbatim;
rows written by `save_orders_to_csv` always carry all seven columns, which
the model requires uniformly. -/
def recordOfRow (header row : List String) : Except String Record := do
  let oid ← requireCol header row "order_id"
  let pid ← requireCol header row "payment_id"
  let req ← requireCol header row "requires_cancellation"
  let att ← requireCol header row "cancellation_attempted"
  let st ← requireCol header row "cancellation_status"
  let em ← requireCol header row "error_message"
  let ts ← requireCol header row "timestamp"
  .ok { order_id := oid, payment_id := pid,
        requires_cancellation := parseReq req,
        cancellation_attempted := decide (att = "True"),
        cancellation_status := st, error_message := em, timestamp := ts }

theorem recordOfRow_recToRow (r : Record) : recordOfRow csvHeader (recToRow r) = .ok r := by
  obtain ⟨oid, pid, req, att, st, em, ts⟩ := r
  cases att <;> rcases req with _ | _ | _ <;> rfl

/-- The net effect of universal-newline translation on one stored record:
every string field comes back translated; the boolean-like fields
round-trip unchanged (their rendered forms hold no `\r`). -/
def trRec (r : Record) : Record :=
  { order_id := trStr r.order_id, payment_id := trStr r.payment_id,
    requires_cancellation := r.requires_cancellation,
    cancellation_attempted := r.cancellation_attempted,
    cancellation_status := trStr r.cancellation_status,
    error_message := trStr r.error_message, timestamp := trStr r.timestamp }

theorem trStr_renderReq (q : Option Bool) : trStr (renderReq q) = renderReq q := by
  cases q with
  | none => decide
  | some b => cases b <;> decide

theorem trStr_renderBool (b : Bool) : trStr (renderBool b) = renderBool b := by
  cases b <;> decide

theorem recToRow_map_trStr (r : Record) :
    (recToRow r).map trStr = recToRow (trRec r) := by
  simp [recToRow, trRec, trStr_renderReq, trStr_renderBool]

/-! ### The in-memory ledger: a Python dict keyed by `order_id` -/

/-- `order_id in orders_data`. -/
def hasKey (L : List Record) (id : String) : Bool :=
  L.any (fun r => r.order_id == id)

/-- `orders_data[order_id]` (as an option). -/
def findRec (L : List Record) (id : String) : Option Record :=
  L.find? (fun r => r.order_id == id)

/-- `orders_data[order_id] = row`: update in place when the key exists
(dicts keep insertion order), append otherwise. -/
def insertRec (L : List Record) (r : Record) : List Record :=
  if hasKey L r.order_id then
    L.map (fun x => if x.order_id = r.order_id then r else x)
  else L ++ [r]

def ledgerKeys (L : List Record) : List String :=
  L.map (fun r => r.order_id)

def NodupKeys (L : List Record) : Prop := (ledgerKeys L).Nodup

/-- Comparison of records by key, mirroring `sorted(orders_data.keys())`. -/
def recLE (a b : Record) : Prop := a.order_id ≤ b.order_id

def recLT (a b : Record) : Prop := a.order_id < b.order_id

instance : DecidableRel recLE :=
  fun a b => inferInstanceAs (Decidable (a.order_id ≤ b.order_id))

instance : IsTotal Record recLE := ⟨fun a b => le_total a.order_id b.order_id⟩

instance : IsTrans Record recLE := ⟨fun _ _ _ h1 h2 => le_trans h1 h2⟩

instance : IsAntisymm Record recLT := ⟨fun _ _ h1 h2 => absurd h2 (lt_asymm h1)⟩

/-- The iteration order of `save_orders_to_csv` (`sorted(orders_data.keys())`). -/
def sortRecs (L : List Record) : List Record := L.insertionSort recLE

/-- Strictly ascending keys: the shape of every file the script writes. -/
def SortedKeys (L : List Record) : Prop := List.Sorted recLT L

/-- `save_orders_to_csv`: header plus one QUOTE_ALL row per order,
in ascending key order, `\r\n`-terminated. -/
def saveOrders (L : List Record) : String :=
  String.mk (renderRows (csvHeader :: (sortRecs L).map recToRow))

/-- `load_orders_from_csv`: a missing file (`none`) loads as the empty
dict; otherwise the raw text goes through Python's universal-newline
translation (the file is opened without `newline=''`), the first CSV row
is the header and each data row is folded into the dict keyed by
`order_id` (a duplicate key overwrites).  A row missing a required column
raises `KeyError`, which the Python function logs and re-raises
(`Except.error`). -/
def loadOrders : Option String → Except String (List Record)
  | none => .ok []
  | some content =>
    match parseRows (translateNewlines content.data) with
    | [] => .ok []
    | header :: dataRows =>
      dataRows.foldlM (fun L row => do
        let r ← recordOfRow header row
        pure (insertRec L r)) []

/-! ### Ledger lemmas -/

theorem hasKey_iff (L : List Record) (id : String) :
    hasKey L id = true ↔ id ∈ ledgerKeys L := by
  simp only [hasKey, List.any_eq_true, beq_iff_eq, ledgerKeys, List.mem_map]

theorem ledgerKeys_insertRec_mem (L : List Record) (r : Record)
    (h : hasKey L r.order_id = true) :
    ledgerKeys (insertRec L r) = ledgerKeys L := by
  simp only [insertRec, if_pos h, ledgerKeys, List.map_map]
  apply List.map_congr_left
  intro x _
  by_cases hx : x.order_id = r.order_id
  · simp [hx]
  · simp [hx]

theorem ledgerKeys_insertRec_new (L : List Record) (r : Record)
    (h : hasKey L r.order_id = false) :
    ledgerKeys (insertRec L r) = ledgerKeys L ++ [r.order_id] := by
  simp [insertRec, h, ledgerKeys]

theorem nodupKeys_insertRec (L : List Record) (r : Record) (h : NodupKeys L) :
    NodupKeys (insertRec L r) := by
  unfold NodupKeys at h ⊢
  by_cases hk : hasKey L r.order_id
  · rw [ledgerKeys_insertRec_mem L r hk]
    exact h
  · rw [ledgerKeys_insertRec_new L r (by simpa using hk)]
    have hni : r.order_id ∉ ledgerKeys L := by
      intro hm
      exact hk ((hasKey_iff L r.order_id).mpr hm)
    simpa [List.nodup_append] using ⟨h, hni⟩

theorem foldl_insertRec_append :
    ∀ (M acc : List Record), NodupKeys (acc ++ M) → M.foldl insertRec acc = acc ++ M := by
  intro M
  induction M with
  | nil => intro acc _; simp
  | cons m M ih =>
    intro acc hnd
    have hm : hasKey acc m.order_id = false := by
      have hkeys : ledgerKeys (acc ++ m :: M) =
          ledgerKeys acc ++ (m.order_id :: ledgerKeys M) := by
        simp [ledgerKeys]
      unfold NodupKeys at hnd
      rw [hkeys, List.nodup_append] at hnd
      by_contra hk
      have hk2 : m.order_id ∈ ledgerKeys acc :=
        (hasKey_iff acc m.order_id).mp (by simpa using hk)
      exact hnd.2.2 hk2 (by simp)
    have hstep : insertRec acc m = acc ++ [m] := by
      simp [insertRec, hm]
    rw [List.foldl_cons, hstep]
    have hnd2 : NodupKeys ((acc ++ [m]) ++ M) := by
      unfold NodupKeys at hnd ⊢
      simpa [ledgerKeys] using hnd
    rw [ih (acc ++ [m]) hnd2]
    simp

theorem insertRec_mem {L : List Record} {r x : Record}
    (h : x ∈ insertRec L r) : x ∈ L ∨ x = r := by
  unfold insertRec at h
  by_cases hc : hasKey L r.order_id
  · rw [if_pos hc] at h
    obtain ⟨y, hy, he⟩ := List.mem_map.mp h
    by_cases hk : y.order_id = r.order_id
    · right
      rw [← he, if_pos hk]
    · left
      rw [← he, if_neg hk]
      exact hy
  · rw [if_neg hc] at h
    rcases List.mem_append.mp h with h1 | h1
    · left; exact h1
    · right; simpa using h1

theorem foldl_insertRec_mem :
    ∀ (rs acc : List Record) (x : Record), x ∈ rs.foldl insertRec acc →
      x ∈ acc ∨ x ∈ rs := by
  intro rs
  induction rs with
  | nil => intro acc x h; left; simpa using h
  | cons q rs ih =>
    intro acc x h
    rw [List.foldl_cons] at h
    rcases ih (insertRec acc q) x h with h1 | h1
    · rcases insertRec_mem h1 with h2 | h2
      · left; exact h2
      · right; simp [h2]
    · right; simp [h1]

theorem foldl_insertRec_nodupKeys :
    ∀ (rs acc : List Record), NodupKeys acc → NodupKeys (rs.foldl insertRec acc) := by
  intro rs
  induction rs with
  | nil => intro acc h; simpa using h
  | cons q rs ih =>
    intro acc h
    rw [List.foldl_cons]
    exact ih (insertRec acc q) (nodupKeys_insertRec acc q h)

theorem foldlM_recordOfRow :
    ∀ (M acc : List Record),
      (M.map recToRow).foldlM (fun L row => do
        let r ← recordOfRow csvHeader row
        pure (insertRec L r)) acc = Except.ok (M.foldl insertRec acc) := by
  intro M
  induction M with
  | nil => intro acc; rfl
  | cons m M ih =>
    intro acc
    simp only [List.map_cons, List.foldlM_cons, recordOfRow_recToRow]
    simpa using ih (insertRec acc m)

theorem sortRecs_perm (L : List Record) : List.Perm (sortRecs L) L :=
  List.perm_insertionSort recLE L

theorem nodupKeys_of_perm {L M : List Record} (h : List.Perm L M) (hn : NodupKeys M) :
    NodupKeys L := by
  unfold NodupKeys ledgerKeys at hn ⊢
  exact ((h.map (fun r => r.order_id)).nodup_iff).mpr hn

theorem sortedKeys_sortRecs (L : List Record) (h : NodupKeys L) :
    SortedKeys (sortRecs L) := by
  have hs : List.Sorted recLE (sortRecs L) := List.sorted_insertionSort recLE L
  have hn : NodupKeys (sortRecs L) := nodupKeys_of_perm (sortRecs_perm L) h
  unfold NodupKeys ledgerKeys at hn
  have hp : (sortRecs L).Pairwise (fun a b => a.order_id ≠ b.order_id) := by
    exact (List.pairwise_map.mp hn)
  unfold SortedKeys
  exact List.Pairwise.imp₂ (fun a b h1 h2 => lt_of_le_of_ne h1 h2) hs hp

theorem nodupKeys_of_sortedKeys (L : List Record) (h : SortedKeys L) : NodupKeys L := by
  unfold SortedKeys at h
  unfold NodupKeys ledgerKeys
  have h2 : (L.map (fun r => r.order_id)).Pairwise (· ≠ ·) := by
    refine List.Pairwise.map (fun r => r.order_id) ?_ h
    intro a b hab
    exact ne_of_lt hab
  exact h2

theorem sortRecs_eq_self (L : List Record) (h : SortedKeys L) : sortRecs L = L := by
  have h2 : SortedKeys (sortRecs L) := sortedKeys_sortRecs L (nodupKeys_of_sortedKeys L h)
  exact List.eq_of_perm_of_sorted (sortRecs_perm L) h2 h

theorem recToRow_ne_nil (r : Record) : recToRow r ≠ [] := by
  simp [recToRow]

theorem ledgerKeys_map_of_preserve (L : List Record) (f : Record → Record)
    (h : ∀ r ∈ L, (f r).order_id = r.order_id) :
    ledgerKeys (L.map f) = ledgerKeys L := by
  unfold ledgerKeys
  rw [List.map_map]
  exact List.map_congr_left (fun r hr => h r hr)

theorem loadOrders_some (content : String) :
    loadOrders (some content) =
      match parseRows (translateNewlines content.data) with
      | [] => .ok []
      | header :: dataRows =>
        dataRows.foldlM (fun L row => do
          let r ← recordOfRow header row
          pure (insertRec L r)) [] := rfl

/-- What the reader sees of a saved file: the header survives the newline
translation verbatim, each stored record comes back as `trRec` of itself. -/
theorem parseRows_translate_saveOrders (L : List Record) :
    parseRows (translateNewlines (saveOrders L).data) =
      csvHeader :: ((sortRecs L).map trRec).map recToRow := by
  rw [show (saveOrders L).data
      = renderRows (csvHeader :: (sortRecs L).map recToRow) from rfl]
  rw [translate_renderRows]
  have hhead : csvHeader.map trStr = csvHeader := by decide
  have hrows : ((sortRecs L).map recToRow).map (List.map trStr) =
      ((sortRecs L).map trRec).map recToRow := by
    rw [List.map_map, List.map_map]
    exact List.map_congr_left (fun r _ => recToRow_map_trStr r)
  rw [List.map_cons, hhead, hrows]
  apply parseRows_renderRowsLF
  intro row hrow
  rcases List.mem_cons.mp hrow with h1 | h1
  · subst h1; simp [csvHeader]
  · obtain ⟨r, _, rfl⟩ := List.mem_map.mp h1
    exact recToRow_ne_nil r

/-- Reading back any saved file: the sorted, newline-translated records,
folded into a dict (duplicate post-translation keys overwrite). -/
theorem loadOrders_saveOrders_raw (L : List Record) :
    loadOrders (some (saveOrders L)) =
      .ok (((sortRecs L).map trRec).foldl insertRec []) := by
  rw [loadOrders_some]
  simp only [parseRows_translate_saveOrders]
  rw [foldlM_recordOfRow ((sortRecs L).map trRec) []]

/-- The keys a ledger exposes after newline translation. -/
def CleanKeys (L : List Record) : Prop :=
  ∀ r ∈ L, trStr r.order_id = r.order_id

theorem ledgerKeys_map_trRec {L : List Record} (hck : CleanKeys L) :
    ledgerKeys (L.map trRec) = ledgerKeys L :=
  ledgerKeys_map_of_preserve L trRec (fun r hr => hck r hr)

/-- Reading back a file written by `save_orders_to_csv` from a dict whose
keys hold no `\r`: the dict in ascending key order, with every value field
newline-translated. -/
theorem loadOrders_saveOrders (L : List Record) (hnd : NodupKeys L)
    (hck : CleanKeys L) :
    loadOrders (some (saveOrders L)) = .ok ((sortRecs L).map trRec) := by
  rw [loadOrders_saveOrders_raw]
  have hck2 : CleanKeys (sortRecs L) :=
    fun r hr => hck r ((sortRecs_perm L).mem_iff.mp hr)
  have hnd2 : NodupKeys ([] ++ (sortRecs L).map trRec) := by
    unfold NodupKeys
    rw [List.nil_append, ledgerKeys_map_trRec hck2]
    exact nodupKeys_of_perm (sortRecs_perm L) hnd
  rw [foldl_insertRec_append _ [] hnd2]
  simp

/-- Reading back a saved dict of fully `\r`-free records recovers it in
ascending key order. -/
theorem loadOrders_saveOrders_clean (L : List Record) (hnd : NodupKeys L)
    (hc : ∀ r ∈ L, trRec r = r) :
    loadOrders (some (saveOrders L)) = .ok (sortRecs L) := by
  rw [loadOrders_saveOrders L hnd (fun r hr => congrArg Record.order_id (hc r hr))]
  have : (sortRecs L).map trRec = (sortRecs L).map (fun r => r) :=
    List.map_congr_left (fun r hr => hc r ((sortRecs_perm L).mem_iff.mp hr))
  rw [this, List.map_id']

/-- Reading back a file written from an already key-sorted dict of
`\r`-free records gives that dict exactly. -/
theorem loadOrders_saveOrders_sorted (L : List Record) (h : SortedKeys L)
    (hc : ∀ r ∈ L, trRec r = r) :
    loadOrders (some (saveOrders L)) = .ok L := by
  rw [loadOrders_saveOrders_clean L (nodupKeys_of_sortedKeys L h) hc,
    sortRecs_eq_self L h]

/-! ### update_order_in_csv -/

/-- The `updates` dict passed to `update_order_in_csv`: `none` fields are
absent from the dict and leave the stored value unchanged. -/
structure Updates where
  payment_id : Option String := none
  requires_cancellation : Option (Option Bool) := none
  cancellation_attempted : Option Bool := none
  cancellation_status : Option String := none
  error_message : Option String := none
deriving DecidableEq, Repr

/-- `orders_data[order_id].update(updates)` followed by
`orders_data[order_id]['timestamp'] = now`. -/
def applyUpdRec (r : Record) (u : Updates) (now : String) : Record :=
  { r with
    payment_id := u.payment_id.getD r.payment_id,
    requires_cancellation := u.requires_cancellation.getD r.requires_cancellation,
    cancellation_attempted := u.cancellation_attempted.getD r.cancellation_attempted,
    cancellation_status := u.cancellation_status.getD r.cancellation_status,
    error_message := u.error_message.getD r.error_message,
    timestamp := now }

/-- `update_order_in_csv`: load the whole CSV; if the order is absent, log a
warning and return (the file is untouched); otherwise merge the updates,
stamp the time and rewrite the whole file. -/
def updateOrderInCsv (file : Option String) (id : String) (u : Updates)
    (now : String) : Except String (Option String) := do
  let L ← loadOrders file
  if hasKey L id then
    .ok (some (saveOrders (L.map (fun r =>
      if r.order_id = id then applyUpdRec r u now else r))))
  else
    .ok file

/-! ### get_pending_orders_from_csv -/

/-- The filter of `get_pending_orders_from_csv`:
`not cancellation_attempted and requires_cancellation is True`. -/
def isPending (r : Record) : Bool :=
  !r.cancellation_attempted && (r.requires_cancellation == some true)

/-- `get_pending_orders_from_csv` applied to an already loaded dict (the
Python function re-reads the file; `main` calls it on an unchanged file
right after `load_orders_from_csv`). -/
def pendingOrders (L : List Record) : List String :=
  (L.filter isPending).map (fun r => r.order_id)

/-! ### get_canceled_orders_from_magento (CSV seeding part) -/

/-- The dict entry written for each fetched order: `payment_id=None`,
`requires_cancellation=None`, `cancellation_attempted=False`,
`cancellation_status='PENDING'`, `error_message=''`. -/
def freshRecord (id now : String) : Record :=
  { order_id := id, payment_id := "", requires_cancellation := none,
    cancellation_attempted := false, cancellation_status := "PENDING",
    error_message := "", timestamp := now }

def buildFreshLedger (ids : List String) (now : String) : List Record :=
  ids.foldl (fun L id => insertRec L (freshRecord id now)) []

theorem buildFreshLedger_mem {ids : List String} {now : String} {r : Record}
    (h : r ∈ buildFreshLedger ids now) : ∃ id ∈ ids, r = freshRecord id now := by
  unfold buildFreshLedger at h
  rw [show ids.foldl (fun L id => insertRec L (freshRecord id now)) [] =
      (ids.map (fun id => freshRecord id now)).foldl insertRec [] by
    rw [List.foldl_map]] at h
  rcases foldl_insertRec_mem _ [] r h with h1 | h1
  · simp at h1
  · obtain ⟨id, hid, he⟩ := List.mem_map.mp h1
    exact ⟨id, hid, he.symm⟩

theorem buildFreshLedger_nodupKeys (ids : List String) (now : String) :
    NodupKeys (buildFreshLedger ids now) := by
  unfold buildFreshLedger
  rw [show ids.foldl (fun L id => insertRec L (freshRecord id now)) [] =
      (ids.map (fun id => freshRecord id now)).foldl insertRec [] by
    rw [List.foldl_map]]
  exact foldl_insertRec_nodupKeys _ [] (by simp [NodupKeys, ledgerKeys])

/-- The CSV effect of `get_canceled_orders_from_magento`: when the fetched
list is non-empty it builds a brand-new dict from scratch and overwrites
the whole file with it; when empty, the file is left alone. -/
def registerOrdersCsv (file : Option String) (ids : List String)
    (now : String) : Option String :=
  if ids = [] then file else some (saveOrders (buildFreshLedger ids now))

/-! ### get_non_canceled_payments_from_papaya -/

/-- One row of the Papaya query
(`SELECT pi.payment_id, pi.client_order_id ...`).  `payment_id` is an
opaque identifier (an `int` in Python, a `String` here). -/
structure PapayaRow where
  payment_id : String
  client_order_id : String
deriving DecidableEq, Repr

/-- Python dict assignment `m[k] = v` on an association list. -/
def dictInsert (m : List (String × String)) (k v : String) :
    List (String × String) :=
  if m.any (fun kv => kv.1 == k) then
    m.map (fun kv => if kv.1 = k then (k, v) else kv)
  else m ++ [(k, v)]

/-- A dict comprehension over a list of key-value pairs (later pairs with
the same key overwrite earlier ones). -/
def buildDict (pairs : List (String × String)) : List (String × String) :=
  pairs.foldl (fun m kv => dictInsert m kv.1 kv.2) []

/-- `k in m` then `m[k]`, as an option. -/
def lookupD (m : List (String × String)) (k : String) : Option String :=
  (m.find? (fun kv => kv.1 == k)).map (fun kv => kv.2)

/-- The per-order CSV mutation of `get_non_canceled_payments_from_papaya`:
orders with a payment get `requires_cancellation=True`, status `PENDING`;
orders without get `payment_id=''`, `requires_cancellation=False`, status
`NOT_REQUIRED`. -/
def papayaApply (r : Record) (p? : Option String) (now : String) : Record :=
  match p? with
  | some p =>
    { r with
      payment_id := p,
      requires_cancellation := some true,
      cancellation_status := "PENDING",
      timestamp := now }
  | none =>
    { r with
      payment_id := "",
      requires_cancellation := some false,
      cancellation_status := "NOT_REQUIRED",
      timestamp := now }

/-- The `for order_id in order_ids` CSV-update loop of
`get_non_canceled_payments_from_papaya` (orders absent from the dict are
skipped). -/
def papayaUpdateLedger (o2p : List (String × String)) (now : String)
    (L : List Record) (orderIds : List String) : List Record :=
  orderIds.foldl (fun M oid =>
    if hasKey M oid then
      M.map (fun r => if r.order_id = oid then papayaApply r (lookupD o2p oid) now else r)
    else M) L

/-- `get_non_canceled_payments_from_papaya`: with an empty input it returns
`([], {})` without touching anything; otherwise it runs the query, builds
the payment list and the order-to-payment dict, updates the CSV for every
queried order and rewrites the file.  Returns
`(payment_ids, order_to_payment_map, file)`. -/
def getNonCanceledPayments (papaya : List String → List PapayaRow)
    (file : Option String) (orderIds : List String) (now : String) :
    Except String (List String × List (String × String) × Option String) :=
  if orderIds = [] then .ok ([], [], file)
  else do
    let rows := papaya orderIds
    let pids := rows.map (fun r => r.payment_id)
    let o2p := buildDict (rows.map (fun r => (r.client_order_id, r.payment_id)))
    let L ← loadOrders file
    .ok (pids, o2p, some (saveOrders (papayaUpdateLedger o2p now L orderIds)))

/-! ### cancel_payment_via_api -/

/-- The observable behaviour of one `requests.post` call: an HTTP response
(status code, JSON body when parseable, raw text), a timeout, or another
transport error (`RequestException`, with its `str`). -/
inductive ApiResponse where
  | http (status : Nat) (jsonBody : Option String) (text : String)
  | timeout
  | requestError (msg : String)
deriving DecidableEq, Repr

/-- `cancel_payment_via_api`: 200 is success; any other status builds
`API returned status N: detail` from the JSON body when parseable, else
the raw text; `Timeout` gives `Request timeout`; any other
`RequestException` gives `Request error: str(e)`. -/
def cancelPaymentViaApi (resp : ApiResponse) : Bool × String :=
  match resp with
  | .http status jsonBody text =>
    if status = 200 then (true, "Success")
    else
      (false, "API returned status " ++ toString status ++ ": " ++
        (match jsonBody with
         | some d => d
         | none => text))
  | .timeout => (false, "Request timeout")
  | .requestError e => (false, "Request error: " ++ e)

/-! ### cancel_payments_via_api -/

structure Stats where
  total : Nat
  success : Nat
  failed : Nat
  errors : List (String × String)
deriving DecidableEq, Repr

/-- The `updates` dict written after one cancellation attempt. -/
def mkCancelUpd (res : Bool × String) : Updates :=
  { cancellation_attempted := some true,
    cancellation_status := some (if res.1 then "SUCCESS" else "FAILED"),
    error_message := some (if res.1 then "" else res.2) }

/-- One iteration of the `for payment_id in payment_ids` loop: call the
API, update the stats, and (when the payment maps back to an order) write
the outcome through `update_order_in_csv`.  The state also records the
list of payments sent to the API so far.  An exception from the CSV write
propagates (there is no try/except around the loop body). -/
def cancelOneStep (api : String → ApiResponse) (p2o : List (String × String))
    (now : String) (st : Stats × Option String × List String) (p : String) :
    Except String (Stats × Option String × List String) := do
  let res := cancelPaymentViaApi (api p)
  let st2 : Stats :=
    if res.1 then { st.1 with success := st.1.success + 1 }
    else { st.1 with failed := st.1.failed + 1, errors := st.1.errors ++ [(p, res.2)] }
  let calls2 := st.2.2 ++ [p]
  match lookupD p2o p with
  | some oid => do
    let f2 ← updateOrderInCsv st.2.1 oid (mkCancelUpd res) now
    pure (st2, f2, calls2)
  | none => pure (st2, st.2.1, calls2)

/-- `cancel_payments_via_api`: early return for an empty payment list,
otherwise the sequential loop above.  Returns the stats, the final file
and the list of payments for which the API was called. -/
def cancelPaymentsViaApi (api : String → ApiResponse) (file : Option String)
    (pids : List String) (p2o : List (String × String)) (now : String) :
    Except String (Stats × Option String × List String) :=
  if pids = [] then .ok ({ total := 0, success := 0, failed := 0, errors := [] }, file, [])
  else
    pids.foldlM (cancelOneStep api p2o now)
      ({ total := pids.length, success := 0, failed := 0, errors := [] }, file, [])

/-! ### main -/

/-- The external collaborators of one run: the Magento query result, the
Papaya query (as a function of the queried order list) and the cancel API
(as a function of the payment id).  An unchanged source between two runs
is the same `Source` value. -/
structure Source where
  magento : List String
  papaya : List String → List PapayaRow
  api : String → ApiResponse

/-- `sum(1 for o in orders_data.values() if o.get('cancellation_status') == 'FAILED')`. -/
def countFailed (L : List Record) : Nat :=
  (L.filter (fun r => r.cancellation_status == "FAILED")).length

/-- `main`: resume mode when the CSV exists, fresh mode otherwise; returns
the final file, the process exit code and the list of API calls made.
A resume run with no pending orders prints the summary and exits 0
without touching anything.  Uncaught exceptions (`Except.error`) are
caught by `main`'s top-level handler, which exits 1. -/
def mainRun (src : Source) (file : Option String) (now : String) :
    Except String (Option String × Nat × List String) :=
  match file with
  | some _ => do
    let L0 ← loadOrders file
    if pendingOrders L0 = [] then .ok (file, 0, [])
    else do
      let r2 ← getNonCanceledPayments src.papaya file (pendingOrders L0) now
      let r3 ← cancelPaymentsViaApi src.api r2.2.2 r2.1
        (buildDict (r2.2.1.map (fun kv => (kv.2, kv.1)))) now
      let L3 ← loadOrders r3.2.1
      .ok (r3.2.1, (if countFailed L3 > 0 then 1 else 0), r3.2.2)
  | none => do
    let r2 ← getNonCanceledPayments src.papaya
      (registerOrdersCsv none src.magento now) src.magento now
    let r3 ← cancelPaymentsViaApi src.api r2.2.2 r2.1
      (buildDict (r2.2.1.map (fun kv => (kv.2, kv.1)))) now
    let L3 ← loadOrders r3.2.1
    .ok (r3.2.1, (if countFailed L3 > 0 then 1 else 0), r3.2.2)

/-! ### Plumbing lemmas for `Except` and the file operations -/

@[simp] theorem ok_bind {α β : Type} (a : α) (f : α → Except String β) :
    (Except.ok a >>= f) = f a := rfl

@[simp] theorem error_bind {α β : Type} (e : String) (f : α → Except String β) :
    ((Except.error e : Except String α) >>= f) = .error e := rfl

theorem updateOrderInCsv_present (file : Option String) (id : String) (u : Updates)
    (now : String) (L : List Record) (hL : loadOrders file = .ok L)
    (h : hasKey L id = true) :
    updateOrderInCsv file id u now =
      .ok (some (saveOrders (L.map (fun r =>
        if r.order_id = id then applyUpdRec r u now else r)))) := by
  unfold updateOrderInCsv
  rw [hL, ok_bind]
  simp [h]

theorem updateOrderInCsv_absent (file : Option String) (id : String) (u : Updates)
    (now : String) (L : List Record) (hL : loadOrders file = .ok L)
    (h : hasKey L id = false) :
    updateOrderInCsv file id u now = .ok file := by
  unfold updateOrderInCsv
  rw [hL, ok_bind]
  simp [h]

theorem loadOrders_none : loadOrders none = .ok [] := rfl

theorem findRec_eq_none_iff (L : List Record) (id : String) :
    findRec L id = none ↔ hasKey L id = false := by
  simp [findRec, hasKey, List.find?_eq_none, List.any_eq_true]

/-! ### Claim C5 -/

/-- C5: `cancel_payment_via_api` classifies the remote response as: HTTP
status 200 yields success; any other status yields failure with a detail
built from the JSON body when parseable, else the raw body text; a network
timeout yields the failure detail `Request timeout`; and any other
transport exception yields failure with the stringified cause. -/
theorem c5_cancel_classification :
    (∀ j t, cancelPaymentViaApi (.http 200 j t) = (true, "Success")) ∧
    (∀ s j t, s ≠ 200 →
      cancelPaymentViaApi (.http s (some j) t) =
        (false, "API returned status " ++ toString s ++ ": " ++ j) ∧
      cancelPaymentViaApi (.http s none t) =
        (false, "API returned status " ++ toString s ++ ": " ++ t)) ∧
    cancelPaymentViaApi .timeout = (false, "Request timeout") ∧
    (∀ e, cancelPaymentViaApi (.requestError e) = (false, "Request error: " ++ e)) := by
  refine ⟨fun j t => rfl, fun s j t hs => ?_, rfl, fun e => rfl⟩
  unfold cancelPaymentViaApi
  simp [hs]

/-- Witness for C5 at status 500. -/
theorem c5_cancel_classification_witness :
    cancelPaymentViaApi (.http 500 (some "oops") "body") =
      (false, "API returned status " ++ toString 500 ++ ": " ++ "oops") ∧
    cancelPaymentViaApi (.http 502 none "bad gateway") =
      (false, "API returned status " ++ toString 502 ++ ": " ++ "bad gateway") :=
  ⟨(c5_cancel_classification.2.1 500 "oops" "body" (by decide)).1,
   (c5_cancel_classification.2.1 502 "bad gateway" "bad gateway" (by decide)).2⟩

/-! ### Claim C10 -/

/-- C10: updating an order id that is not present in the ledger is a no-op:
`update_order_in_csv` logs a warning and returns without error, the file is
unchanged, so no record is created and every existing record is untouched. -/
theorem c10_update_missing_noop (file : Option String) (id : String)
    (u : Updates) (now : String) (L : List Record)
    (hL : loadOrders file = .ok L) (habsent : findRec L id = none) :
    updateOrderInCsv file id u now = .ok file :=
  updateOrderInCsv_absent file id u now L hL
    ((findRec_eq_none_iff L id).mp habsent)

def exRecB : Record :=
  { order_id := "B", payment_id := "p9", requires_cancellation := some true,
    cancellation_attempted := true, cancellation_status := "SUCCESS",
    error_message := "", timestamp := "t0" }

/-- Witness for C10: a ledger holding only order `B`, updated at id `A`. -/
theorem c10_update_missing_noop_witness :
    updateOrderInCsv (some (saveOrders [exRecB])) "A"
      { cancellation_status := some "FAILED" } "t1" =
      .ok (some (saveOrders [exRecB])) :=
  c10_update_missing_noop (some (saveOrders [exRecB])) "A"
    { cancellation_status := some "FAILED" } "t1" [exRecB]
    (loadOrders_saveOrders_sorted [exRecB] (by simp [SortedKeys]) (by decide))
    (by decide)

/-! ### Claim C3 -/

/-- A syntactically valid CSV whose header lacks the `order_id` column and
which has at least one data row: `load_orders_from_csv` raises `KeyError`
on it. -/
def exCorrupt : String := String.mk (renderRows [["foo"], ["bar"]])

theorem loadOrders_exCorrupt :
    loadOrders (some exCorrupt) = .error "KeyError: order_id" := by
  have hp : parseRows (translateNewlines exCorrupt.data) = [["foo"], ["bar"]] := by
    rw [show exCorrupt.data = renderRows [["foo"], ["bar"]] from rfl]
    rw [translate_renderRows]
    rw [show ([["foo"], ["bar"]] : List (List String)).map (List.map trStr) =
      [["foo"], ["bar"]] by decide]
    exact parseRows_renderRowsLF [["foo"], ["bar"]] (by simp)
  rw [loadOrders_some]
  simp only [hp]
  rfl

/-- C3 counterexample: the claim says the load of a corrupt persisted form
returns the empty mapping and never propagates a fatal error; on this
corrupt file the code raises (`Except.error`) instead. -/
theorem c3_corrupt_ledger_raises_counterexample :
    loadOrders (some exCorrupt) = .error "KeyError: order_id" ∧
    loadOrders (some exCorrupt) ≠ .ok [] := by
  refine ⟨loadOrders_exCorrupt, ?_⟩
  rw [loadOrders_exCorrupt]
  intro h
  exact Except.noConfusion h

/-- C3 amended: a missing ledger file loads as the empty mapping, but an
unreadable or corrupt persisted form makes `load_orders_from_csv` log the
error and re-raise it — the fatal error does propagate to the caller. -/
theorem c3_load_amended :
    loadOrders none = .ok [] ∧
    loadOrders (some exCorrupt) = .error "KeyError: order_id" :=
  ⟨rfl, loadOrders_exCorrupt⟩

/-! ### More ledger bookkeeping lemmas -/

theorem nodupKeys_inj {L : List Record} (hnd : NodupKeys L) {r1 r2 : Record}
    (h1 : r1 ∈ L) (h2 : r2 ∈ L) (he : r1.order_id = r2.order_id) : r1 = r2 := by
  unfold NodupKeys ledgerKeys at hnd
  exact List.inj_on_of_nodup_map hnd h1 h2 he

theorem findRec_mem {L : List Record} {id : String} {r : Record}
    (h : findRec L id = some r) : r ∈ L ∧ r.order_id = id := by
  unfold findRec at h
  refine ⟨List.mem_of_find?_eq_some h, ?_⟩
  have := List.find?_some h
  simpa using this

theorem findRec_of_mem {L : List Record} {id : String} {r : Record}
    (hnd : NodupKeys L) (hm : r ∈ L) (hid : r.order_id = id) :
    findRec L id = some r := by
  have hs : (findRec L id).isSome := by
    unfold findRec
    rw [List.find?_isSome]
    exact ⟨r, hm, by simpa using hid⟩
  obtain ⟨x, hx⟩ := Option.isSome_iff_exists.mp hs
  obtain ⟨hxm, hxid⟩ := findRec_mem hx
  rw [hx]
  congr 1
  exact nodupKeys_inj hnd hxm hm (by rw [hxid, hid])

theorem loadOrders_foldlM_nodup :
    ∀ (rows : List (List String)) (header : List String) (acc L : List Record),
      NodupKeys acc →
      rows.foldlM (fun M row => do
        let r ← recordOfRow header row
        pure (insertRec M r)) acc = .ok L →
      NodupKeys L := by
  intro rows
  induction rows with
  | nil =>
    intro header acc L ha h
    simp only [List.foldlM_nil] at h
    cases h
    exact ha
  | cons row rows ih =>
    intro header acc L ha h
    simp only [List.foldlM_cons] at h
    cases hrec : recordOfRow header row with
    | error e => rw [hrec] at h; simp at h
    | ok r =>
      rw [hrec, ok_bind] at h
      exact ih header (insertRec acc r) L (nodupKeys_insertRec acc r ha) h

/-- Every dict `load_orders_from_csv` builds has unique keys. -/
theorem loadOrders_nodupKeys {file : Option String} {L : List Record}
    (h : loadOrders file = .ok L) : NodupKeys L := by
  cases file with
  | none =>
    cases h
    simp [NodupKeys, ledgerKeys]
  | some content =>
    rw [loadOrders_some] at h
    cases hp : parseRows (translateNewlines content.data) with
    | nil =>
      rw [hp] at h
      cases h
      simp [NodupKeys, ledgerKeys]
    | cons header dataRows =>
      rw [hp] at h
      exact loadOrders_foldlM_nodup dataRows header [] L (by simp [NodupKeys, ledgerKeys]) h

/-! ### Claim C1 -/

/-- Terminal statuses of the state machine: `NOT_REQUIRED` (no action
needed), `SUCCESS` and `FAILED`; the seeded `PENDING` state (the spec's
`Fetched`) is the only non-terminal one. -/
def isTerminal (r : Record) : Bool :=
  r.cancellation_status == "NOT_REQUIRED" || r.cancellation_status == "SUCCESS" ||
    r.cancellation_status == "FAILED"

/-- C1 counterexample: a ledger holding one freshly fetched order (status
`PENDING`, `requires_cancellation` still undetermined) — a non-terminal
(`Fetched`) record — yet `get_pending_orders_from_csv` returns the empty
outstanding set, excluding it. -/
theorem c1_fetched_order_excluded_counterexample :
    isTerminal (freshRecord "A" "t0") = false ∧
    pendingOrders [freshRecord "A" "t0"] = [] := by decide

/-- C1 amended: for every ledger the pipeline can produce (unique keys,
`SUCCESS`/`FAILED` records are marked attempted, `NOT_REQUIRED` records
have `requires_cancellation=False`), the outstanding set contains no
terminal order, and consists exactly of the orders present in the ledger
with `requires_cancellation=True` and `cancellation_attempted=False` —
orders absent from the ledger and fetched orders whose
`requires_cancellation` is still `None` are excluded. -/
theorem c1_outstanding_set_amended (L : List Record)
    (hnd : NodupKeys L)
    (hinv : ∀ r ∈ L,
      ((r.cancellation_status = "SUCCESS" ∨ r.cancellation_status = "FAILED") →
        r.cancellation_attempted = true) ∧
      (r.cancellation_status = "NOT_REQUIRED" → r.requires_cancellation = some false)) :
    (∀ r ∈ L, isTerminal r = true → r.order_id ∉ pendingOrders L) ∧
    (∀ id, id ∈ pendingOrders L ↔
      ∃ r ∈ L, r.order_id = id ∧ r.requires_cancellation = some true ∧
        r.cancellation_attempted = false) := by
  have hmem : ∀ id, id ∈ pendingOrders L ↔
      ∃ r ∈ L, r.order_id = id ∧ r.requires_cancellation = some true ∧
        r.cancellation_attempted = false := by
    intro id
    unfold pendingOrders isPending
    simp only [List.mem_map, List.mem_filter, Bool.and_eq_true, Bool.not_eq_true',
      beq_iff_eq]
    constructor
    · rintro ⟨r, ⟨hm, hatt, hreq⟩, hid⟩
      exact ⟨r, hm, hid, hreq, hatt⟩
    · rintro ⟨r, hm, hid, hreq, hatt⟩
      exact ⟨r, ⟨hm, hatt, hreq⟩, hid⟩
  refine ⟨?_, hmem⟩
  intro r hm hterm hp
  obtain ⟨r2, hm2, hid2, hreq2, hatt2⟩ := (hmem r.order_id).mp hp
  have : r2 = r := nodupKeys_inj hnd hm2 hm hid2
  subst this
  unfold isTerminal at hterm
  simp only [Bool.or_eq_true, beq_iff_eq] at hterm
  rcases hterm with (hnr | hsu) | hfa
  · rw [(hinv r2 hm2).2 hnr] at hreq2
    exact Option.noConfusion hreq2 (fun h => Bool.noConfusion h)
  · rw [(hinv r2 hm2).1 (Or.inl hsu)] at hatt2
    exact Bool.noConfusion hatt2
  · rw [(hinv r2 hm2).1 (Or.inr hfa)] at hatt2
    exact Bool.noConfusion hatt2

/-- Witness for the amended C1 on a two-record ledger. -/
theorem c1_outstanding_set_amended_witness :
    ("B" ∉ pendingOrders [freshRecord "A" "t0", exRecB]) ∧
    ("A" ∈ pendingOrders [freshRecord "A" "t0", exRecB] ↔
      ∃ r ∈ [freshRecord "A" "t0", exRecB], r.order_id = "A" ∧
        r.requires_cancellation = some true ∧ r.cancellation_attempted = false) := by
  have h := c1_outstanding_set_amended [freshRecord "A" "t0", exRecB]
    (by unfold NodupKeys ledgerKeys; decide) (by decide)
  exact ⟨h.1 exRecB (by decide) (by decide), h.2 "A"⟩

/-! ### Claim C4 -/

theorem ledgerKeys_map_fresh (ids : List String) (now : String) :
    ledgerKeys (ids.map (fun id => freshRecord id now)) = ids := by
  unfold ledgerKeys
  rw [List.map_map]
  have hf : ((fun (r : Record) => r.order_id) ∘ (fun id => freshRecord id now)) =
      fun id => id := rfl
  rw [hf]
  simp

theorem buildFreshLedger_eq_map (ids : List String) (now : String)
    (hnd : ids.Nodup) :
    buildFreshLedger ids now = ids.map (fun id => freshRecord id now) := by
  unfold buildFreshLedger
  have h1 : ids.foldl (fun L id => insertRec L (freshRecord id now)) [] =
      (ids.map (fun id => freshRecord id now)).foldl insertRec [] := by
    rw [List.foldl_map]
  rw [h1]
  have h2 : NodupKeys ([] ++ ids.map (fun id => freshRecord id now)) := by
    unfold NodupKeys
    rw [List.nil_append, ledgerKeys_map_fresh]
    exact hnd
  rw [foldl_insertRec_append _ _ h2]
  simp

/-- C4 counterexample: `get_canceled_orders_from_magento` is run over a
ledger that already holds order `B` in terminal state `SUCCESS` with a
payment id; after registering the fetched list `["B"]` the stored record
for `B` is a fresh `PENDING` record — its status, payment id and error
detail were all overwritten, not skipped. -/
theorem c4_register_clobbers_counterexample :
    loadOrders (some (saveOrders [exRecB])) = .ok [exRecB] ∧
    loadOrders (registerOrdersCsv (some (saveOrders [exRecB])) ["B"] "t1") =
      .ok [freshRecord "B" "t1"] ∧
    (freshRecord "B" "t1").cancellation_status ≠ exRecB.cancellation_status ∧
    (freshRecord "B" "t1").payment_id ≠ exRecB.payment_id := by
  refine ⟨loadOrders_saveOrders_sorted [exRecB] (by simp [SortedKeys]) (by decide),
    ?_, by decide, by decide⟩
  have hreg : registerOrdersCsv (some (saveOrders [exRecB])) ["B"] "t1" =
      some (saveOrders [freshRecord "B" "t1"]) := by
    unfold registerOrdersCsv
    rw [if_neg (by simp)]
    rw [buildFreshLedger_eq_map ["B"] "t1" (by decide)]
    rfl
  rw [hreg]
  exact loadOrders_saveOrders_sorted [freshRecord "B" "t1"] (by simp [SortedKeys]) (by decide)

theorem trRec_freshRecord {id now : String} (hid : trStr id = id)
    (hnow : trStr now = now) :
    trRec (freshRecord id now) = freshRecord id now := by
  simp [trRec, freshRecord, hid, hnow, show trStr "" = "" from rfl,
    show trStr "PENDING" = "PENDING" by decide]

/-- C4 amended: the CSV-seeding step of `get_canceled_orders_from_magento`
does not skip existing records — for a non-empty fetched list it rebuilds
the dict from scratch and overwrites the whole file, so the resulting
ledger holds exactly one fresh `PENDING` record per fetched id, regardless
of anything previously stored; when the fetched ids and the timestamp are
free of `\r` (fixed by the reader's universal-newline translation), the
overwritten file reads back as exactly those fresh records in key order.
(In `main` the step only runs in fresh mode, when no ledger file exists;
with an empty fetched list the file is untouched.) -/
theorem c4_register_overwrites_amended (file : Option String) (ids : List String)
    (now : String) (hne : ids ≠ []) (hnd : ids.Nodup) :
    registerOrdersCsv file ids now =
      some (saveOrders (ids.map (fun id => freshRecord id now))) ∧
    ((∀ id ∈ ids, trStr id = id) → trStr now = now →
      loadOrders (registerOrdersCsv file ids now) =
        .ok (sortRecs (ids.map (fun id => freshRecord id now)))) := by
  have h1 : registerOrdersCsv file ids now =
      some (saveOrders (ids.map (fun id => freshRecord id now))) := by
    unfold registerOrdersCsv
    rw [if_neg hne, buildFreshLedger_eq_map ids now hnd]
  refine ⟨h1, fun hcid hcnow => ?_⟩
  rw [h1]
  apply loadOrders_saveOrders_clean
  · unfold NodupKeys
    rw [ledgerKeys_map_fresh]
    exact hnd
  · intro r hr
    obtain ⟨id, hid, rfl⟩ := List.mem_map.mp hr
    exact trRec_freshRecord (hcid id hid) hcnow

/-- Witness for the amended C4: registering over an unrelated (even
corrupt) previous file. -/
theorem c4_register_overwrites_amended_witness :
    registerOrdersCsv (some exCorrupt) ["A", "B"] "t2" =
      some (saveOrders (["A", "B"].map (fun id => freshRecord id "t2"))) ∧
    loadOrders (registerOrdersCsv (some exCorrupt) ["A", "B"] "t2") =
      .ok (sortRecs (["A", "B"].map (fun id => freshRecord id "t2"))) := by
  have h := c4_register_overwrites_amended (some exCorrupt) ["A", "B"] "t2"
    (by simp) (by decide)
  exact ⟨h.1, h.2 (by decide) (by decide)⟩

/-! ### Claim C2 -/

theorem bind_eq_ok {α β : Type} {x : Except String α} {f : α → Except String β}
    {b : β} : (x >>= f) = .ok b ↔ ∃ a, x = .ok a ∧ f a = .ok b := by
  cases x with
  | error e => simp [error_bind]
  | ok a => simp [ok_bind]

/-- A record already `FAILED` from a previous run. -/
def exRecFailed : Record :=
  { order_id := "A", payment_id := "p1", requires_cancellation := some true,
    cancellation_attempted := true, cancellation_status := "FAILED",
    error_message := "boom", timestamp := "t0" }

/-- A source whose queries return nothing. -/
def exSrc : Source :=
  { magento := [], papaya := fun _ => [], api := fun _ => .timeout }

/-- C2 counterexample: resuming over a ledger whose only order ended in
`FAILED` (terminal, so the pending set is empty) takes `main`'s
"all orders already processed" branch and exits 0 — even though the ledger
contains a `FAILED` order, where the claim demands a non-zero exit. -/
theorem c2_resume_failed_exit_zero_counterexample :
    loadOrders (some (saveOrders [exRecFailed])) = .ok [exRecFailed] ∧
    countFailed [exRecFailed] = 1 ∧
    mainRun exSrc (some (saveOrders [exRecFailed])) "t1" =
      .ok (some (saveOrders [exRecFailed]), 0, []) := by
  have hload := loadOrders_saveOrders_sorted [exRecFailed] (by simp [SortedKeys]) (by decide)
  refine ⟨hload, by decide, ?_⟩
  show (do
    let L0 ← loadOrders (some (saveOrders [exRecFailed]))
    if pendingOrders L0 = [] then
      .ok (some (saveOrders [exRecFailed]), 0, [])
    else do
      let r2 ← getNonCanceledPayments exSrc.papaya (some (saveOrders [exRecFailed]))
        (pendingOrders L0) "t1"
      let r3 ← cancelPaymentsViaApi exSrc.api r2.2.2 r2.1
        (buildDict (r2.2.1.map (fun kv : String × String => (kv.2, kv.1)))) "t1"
      let L3 ← loadOrders r3.2.1
      .ok (r3.2.1, (if countFailed L3 > 0 then 1 else 0), r3.2.2)) =
    .ok (some (saveOrders [exRecFailed]), 0, [])
  rw [hload, ok_bind]
  simp [pendingOrders, isPending, exRecFailed]

/-- C2 amended: every run that reaches the final summary (a fresh run, or a
resume run with a non-empty pending set) exits non-zero exactly when some
order in the final ledger has status `FAILED`; but a resume run whose
pending set is empty exits 0 unconditionally, even when the ledger already
contains `FAILED` orders. -/
theorem c2_exit_code_amended :
    (∀ (src : Source) (now : String) (f : Option String) (e : Nat)
       (calls : List String) (L : List Record),
       mainRun src none now = .ok (f, e, calls) →
       loadOrders f = .ok L → (e ≠ 0 ↔ 0 < countFailed L)) ∧
    (∀ (src : Source) (now c : String) (L : List Record),
       loadOrders (some c) = .ok L → pendingOrders L = [] →
       mainRun src (some c) now = .ok (some c, 0, [])) ∧
    (∀ (src : Source) (now c : String) (L0 : List Record) (f : Option String)
       (e : Nat) (calls : List String) (L : List Record),
       loadOrders (some c) = .ok L0 → pendingOrders L0 ≠ [] →
       mainRun src (some c) now = .ok (f, e, calls) →
       loadOrders f = .ok L → (e ≠ 0 ↔ 0 < countFailed L)) := by
  refine ⟨?_, ?_, ?_⟩
  · intro src now f e calls L hrun hL
    unfold mainRun at hrun
    simp only [bind_eq_ok] at hrun
    obtain ⟨r2, h2, r3, h3, L3, hL3, hfin⟩ := hrun
    simp only [Except.ok.injEq, Prod.mk.injEq] at hfin
    obtain ⟨hf, he, _⟩ := hfin
    rw [← hf] at hL
    rw [hL] at hL3
    cases hL3
    rw [← he]
    by_cases hc : 0 < countFailed L
    · simp [hc]
    · simp [hc, Nat.not_lt.mp hc]
  · intro src now c L hload hpend
    unfold mainRun
    rw [hload, ok_bind]
    simp [hpend]
  · intro src now c L0 f e calls L hload hpend hrun hL
    unfold mainRun at hrun
    rw [hload, ok_bind] at hrun
    rw [if_neg hpend] at hrun
    simp only [bind_eq_ok] at hrun
    obtain ⟨r2, h2, r3, h3, L3, hL3, hfin⟩ := hrun
    simp only [Except.ok.injEq, Prod.mk.injEq] at hfin
    obtain ⟨hf, he, _⟩ := hfin
    rw [← hf] at hL
    rw [hL] at hL3
    cases hL3
    rw [← he]
    by_cases hc : 0 < countFailed L
    · simp [hc]
    · simp [hc, Nat.not_lt.mp hc]

/-- Witness for the amended C2: a trivial fresh run exits 0, and a resume
run over a fully processed ledger exits 0. -/
theorem c2_exit_code_amended_witness :
    ((0 ≠ 0) ↔ 0 < countFailed []) ∧
    mainRun exSrc (some (saveOrders [exRecB])) "t9" =
      .ok (some (saveOrders [exRecB]), 0, []) := by
  constructor
  · exact c2_exit_code_amended.1 exSrc "t9" none 0 [] [] rfl rfl
  · exact c2_exit_code_amended.2.1 exSrc "t9" (saveOrders [exRecB]) [exRecB]
      (loadOrders_saveOrders_sorted [exRecB] (by simp [SortedKeys]) (by decide)) (by decide)

/-! ### Claim C9 -/

/-- The `updates` dict of the claimed `upsert(id, Failed, pid, err)`. -/
def mkFailedUpd (pid err : String) : Updates :=
  { payment_id := some pid, cancellation_attempted := some true,
    cancellation_status := some "FAILED", error_message := some err }

/-- C9 counterexample: the per-order write operation of the code,
`update_order_in_csv`, is an update, not an upsert — performed on an
order id that is not yet in the ledger (here: the ledger file does not
exist) it is a warn-and-return no-op, and the subsequent load yields no
record at all, not a `FAILED` record. -/
theorem c9_upsert_absent_counterexample :
    updateOrderInCsv none "A" (mkFailedUpd "p7" "boom") "t1" = .ok none ∧
    loadOrders none = .ok [] := by
  refine ⟨?_, rfl⟩
  exact updateOrderInCsv_absent none "A" (mkFailedUpd "p7" "boom") "t1" [] rfl (by decide)

/-- C9 amended: provided the order id is already present in the ledger
(whose keys, as the pipeline writes them, hold no `\r`), writing
`{payment_id := pid, status := FAILED, error := err}` through
`update_order_in_csv` and loading the file back yields the record for that
id with status `FAILED`, payment id and error detail as stored up to
Python's universal-newline translation on read (the file is opened without
`newline=''`, so `\r\n` and lone `\r` inside the stored text come back as
`\n`); error text free of carriage returns round-trips verbatim — commas,
quotes and `\n` included.  For an absent id the write is a no-op and no
record is created. -/
theorem c9_roundtrip_amended (file : Option String) (L : List Record)
    (id pid err now : String) (r0 : Record)
    (hL : loadOrders file = .ok L) (hfind : findRec L id = some r0)
    (hck : ∀ r ∈ L, trStr r.order_id = r.order_id) :
    ∃ L3,
      updateOrderInCsv file id (mkFailedUpd pid err) now =
        .ok (some (saveOrders (L.map (fun r =>
          if r.order_id = id then applyUpdRec r (mkFailedUpd pid err) now else r)))) ∧
      loadOrders (some (saveOrders (L.map (fun r =>
          if r.order_id = id then applyUpdRec r (mkFailedUpd pid err) now else r)))) =
        .ok L3 ∧
      findRec L3 id = some { r0 with
        payment_id := trStr pid, cancellation_attempted := true,
        cancellation_status := "FAILED", error_message := trStr err,
        timestamp := trStr now } ∧
      ('\r' ∉ err.data → trStr err = err) := by
  obtain ⟨hm, hid⟩ := findRec_mem hfind
  have hnd := loadOrders_nodupKeys hL
  have hkey : hasKey L id = true :=
    (hasKey_iff L id).mpr (List.mem_map.mpr ⟨r0, hm, hid⟩)
  have hkeys2 : ledgerKeys (L.map (fun r =>
      if r.order_id = id then applyUpdRec r (mkFailedUpd pid err) now else r)) =
      ledgerKeys L := by
    apply ledgerKeys_map_of_preserve
    intro r _
    by_cases hr : r.order_id = id
    · simp [hr, applyUpdRec]
    · simp [hr]
  have hnd2 : NodupKeys (L.map (fun r =>
      if r.order_id = id then applyUpdRec r (mkFailedUpd pid err) now else r)) := by
    unfold NodupKeys
    rw [hkeys2]
    exact hnd
  have hck2 : CleanKeys (L.map (fun r =>
      if r.order_id = id then applyUpdRec r (mkFailedUpd pid err) now else r)) := by
    intro r hr
    obtain ⟨r1, hr1, rfl⟩ := List.mem_map.mp hr
    by_cases h1 : r1.order_id = id
    · rw [if_pos h1]
      exact hck r1 hr1
    · rw [if_neg h1]
      exact hck r1 hr1
  refine ⟨(sortRecs (L.map (fun r =>
      if r.order_id = id then applyUpdRec r (mkFailedUpd pid err) now else r))).map trRec,
    updateOrderInCsv_present file id (mkFailedUpd pid err) now L hL hkey,
    loadOrders_saveOrders _ hnd2 hck2, ?_, fun hcr => trStr_eq_self hcr⟩
  have hnd3 : NodupKeys ((sortRecs (L.map (fun r =>
      if r.order_id = id then applyUpdRec r (mkFailedUpd pid err) now else r))).map trRec) := by
    unfold NodupKeys
    rw [ledgerKeys_map_trRec (fun r hr => hck2 r ((sortRecs_perm _).mem_iff.mp hr))]
    exact nodupKeys_of_perm (sortRecs_perm _) hnd2
  have hmem2 : trRec (applyUpdRec r0 (mkFailedUpd pid err) now) ∈
      (sortRecs (L.map (fun r =>
        if r.order_id = id then applyUpdRec r (mkFailedUpd pid err) now else r))).map trRec := by
    apply List.mem_map.mpr
    refine ⟨applyUpdRec r0 (mkFailedUpd pid err) now, ?_, rfl⟩
    rw [(sortRecs_perm _).mem_iff]
    exact List.mem_map.mpr ⟨r0, hm, by rw [if_pos hid]⟩
  have hkeyr : (trRec (applyUpdRec r0 (mkFailedUpd pid err) now)).order_id = id := by
    show trStr r0.order_id = id
    rw [hck r0 hm, hid]
  rw [findRec_of_mem hnd3 hmem2 hkeyr]
  congr 1
  show ({ order_id := trStr r0.order_id
          payment_id := trStr pid
          requires_cancellation := r0.requires_cancellation
          cancellation_attempted := true
          cancellation_status := trStr "FAILED"
          error_message := trStr err
          timestamp := trStr now } : Record) = _
  rw [hck r0 hm, show trStr "FAILED" = "FAILED" by decide]

/-! ### Claim C8 -/

/-- An exception inside `update_order_in_csv` (here: its read phase raising
on a corrupt file) propagates out of one loop iteration. -/
theorem cancelOneStep_load_error (api : String → ApiResponse)
    (p2o : List (String × String)) (now : String)
    (st : Stats × Option String × List String) (p oid em : String)
    (hlook : lookupD p2o p = some oid) (hload : loadOrders st.2.1 = .error em) :
    cancelOneStep api p2o now st p = .error em := by
  unfold cancelOneStep
  rw [hlook]
  unfold updateOrderInCsv
  rw [hload]
  rfl

/-- When the order the payment maps to is missing from the loaded ledger,
the write is a warn-and-return no-op and the iteration completes. -/
theorem cancelOneStep_absent (api : String → ApiResponse)
    (p2o : List (String × String)) (now : String)
    (st : Stats × Option String × List String) (p oid : String)
    (L : List Record) (hlook : lookupD p2o p = some oid)
    (hload : loadOrders st.2.1 = .ok L) (habs : hasKey L oid = false) :
    cancelOneStep api p2o now st p =
      .ok ((if (cancelPaymentViaApi (api p)).1 then
              { st.1 with success := st.1.success + 1 }
            else
              { st.1 with
                failed := st.1.failed + 1,
                errors := st.1.errors ++ [(p, (cancelPaymentViaApi (api p)).2)] }),
           st.2.1, st.2.2 ++ [p]) := by
  simp only [cancelOneStep, hlook]
  simp only [updateOrderInCsv, hload, ok_bind, habs]
  rfl

/-- There is no try/except around the loop body of
`cancel_payments_via_api`: a failing ledger write for the first payment
aborts the whole batch. -/
theorem cancelPayments_write_error_aborts (api : String → ApiResponse)
    (file : Option String) (p : String) (rest : List String)
    (p2o : List (String × String)) (now oid em : String)
    (hlook : lookupD p2o p = some oid) (hload : loadOrders file = .error em) :
    cancelPaymentsViaApi api file (p :: rest) p2o now = .error em := by
  unfold cancelPaymentsViaApi
  rw [if_neg (by simp)]
  rw [List.foldlM_cons]
  rw [cancelOneStep_load_error api p2o now _ p oid em hlook hload]
  rfl

/-- C8 counterexample: with the ledger file corrupt at write time, the
outcome write for the first payment raises; the run does not continue to
the second payment — the whole batch call fails. -/
theorem c8_write_failure_aborts_counterexample :
    cancelPaymentsViaApi exSrc.api (some exCorrupt) ["p1", "p2"]
      [("p1", "A"), ("p2", "B")] "t1" = .error "KeyError: order_id" :=
  cancelPayments_write_error_aborts exSrc.api (some exCorrupt) "p1" ["p2"]
    [("p1", "A"), ("p2", "B")] "t1" "A" "KeyError: order_id" (by decide)
    loadOrders_exCorrupt

/-- C8 amended: a failure inside a single order's ledger write is NOT
recovered locally — it propagates out of the batch loop, the remaining
orders are not processed and `main`'s top-level handler ends the run
(non-zero exit).  Only the "order id missing from the ledger" case is
handled locally: it logs a warning, skips the write and the run continues
with the file unchanged. -/
theorem c8_write_failure_amended :
    (∀ (api : String → ApiResponse) (file : Option String) (p : String)
       (rest : List String) (p2o : List (String × String)) (now oid em : String),
       lookupD p2o p = some oid → loadOrders file = .error em →
       cancelPaymentsViaApi api file (p :: rest) p2o now = .error em) ∧
    (∀ (api : String → ApiResponse) (file : Option String) (p : String)
       (p2o : List (String × String)) (now oid : String) (L : List Record),
       lookupD p2o p = some oid → loadOrders file = .ok L →
       hasKey L oid = false →
       cancelPaymentsViaApi api file [p] p2o now =
         .ok ((if (cancelPaymentViaApi (api p)).1 then
                 { total := 1, success := 1, failed := 0, errors := [] }
               else
                 { total := 1,
                   success := 0,
                   failed := 1,
                   errors := [(p, (cancelPaymentViaApi (api p)).2)] }),
              file, [p])) := by
  constructor
  · intro api file p rest p2o now oid em hlook hload
    exact cancelPayments_write_error_aborts api file p rest p2o now oid em hlook hload
  · intro api file p p2o now oid L hlook hload habsent
    unfold cancelPaymentsViaApi
    rw [if_neg (by simp)]
    rw [List.foldlM_cons]
    rw [cancelOneStep_absent api p2o now
      ({ total := [p].length, success := 0, failed := 0, errors := [] }, file, [])
      p oid L hlook hload habsent]
    rw [ok_bind, List.foldlM_nil]
    by_cases hres : (cancelPaymentViaApi (api p)).1
    · simp only [hres, if_true]
      rfl
    · simp only [hres, Bool.false_eq_true, if_false]
      rfl

/-- Witness for the amended C8 (both conjuncts at concrete inputs). -/
theorem c8_write_failure_amended_witness :
    cancelPaymentsViaApi exSrc.api (some exCorrupt) ["p3", "p4", "p5"]
      [("p3", "C")] "t2" = .error "KeyError: order_id" ∧
    cancelPaymentsViaApi exSrc.api (some (saveOrders [exRecB])) ["p3"]
      [("p3", "C")] "t2" =
      .ok ({ total := 1,
             success := 0,
             failed := 1,
             errors := [("p3", "Request timeout")] },
           some (saveOrders [exRecB]), ["p3"]) := by
  constructor
  · exact c8_write_failure_amended.1 exSrc.api (some exCorrupt) "p3" ["p4", "p5"]
      [("p3", "C")] "t2" "C" "KeyError: order_id" (by decide) loadOrders_exCorrupt
  · have h := c8_write_failure_amended.2 exSrc.api (some (saveOrders [exRecB])) "p3"
      [("p3", "C")] "t2" "C" [exRecB] (by decide)
      (loadOrders_saveOrders_sorted [exRecB] (by simp [SortedKeys]) (by decide)) (by decide)
    simpa using h

/-- A freshly seeded order awaiting a cancellation attempt. -/
def exRecPend : Record :=
  { order_id := "A", payment_id := "p0", requires_cancellation := some true,
    cancellation_attempted := false, cancellation_status := "PENDING",
    error_message := "", timestamp := "t0" }

/-- Witness for the amended C9, with an error text holding commas, quotes,
and a `\r\n` that the read path hands back as `\n`. -/
theorem c9_roundtrip_amended_witness :
    ∃ L3,
      updateOrderInCsv (some (saveOrders [exRecPend])) "A"
          (mkFailedUpd "p7" "boom, \"quoted\"\r\nnext") "t5" =
        .ok (some (saveOrders ([exRecPend].map (fun r =>
          if r.order_id = "A" then
            applyUpdRec r (mkFailedUpd "p7" "boom, \"quoted\"\r\nnext") "t5"
          else r)))) ∧
      loadOrders (some (saveOrders ([exRecPend].map (fun r =>
          if r.order_id = "A" then
            applyUpdRec r (mkFailedUpd "p7" "boom, \"quoted\"\r\nnext") "t5"
          else r)))) = .ok L3 ∧
      findRec L3 "A" = some { exRecPend with
        payment_id := "p7", cancellation_attempted := true,
        cancellation_status := "FAILED", error_message := "boom, \"quoted\"\nnext",
        timestamp := "t5" } ∧
      ('\r' ∉ "boom, \"quoted\"\r\nnext".data →
        trStr "boom, \"quoted\"\r\nnext" = "boom, \"quoted\"\r\nnext") :=
  c9_roundtrip_amended (some (saveOrders [exRecPend])) [exRecPend] "A" "p7"
    "boom, \"quoted\"\r\nnext" "t5" exRecPend
    (loadOrders_saveOrders_sorted [exRecPend] (by simp [SortedKeys]) (by decide))
    (by decide) (by decide)

/-! ### Dict lemmas (for `order_to_payment_map` and its reverse) -/

theorem dictInsert_mem {m : List (String × String)} {k v : String}
    {kv : String × String} (h : kv ∈ dictInsert m k v) : kv ∈ m ∨ kv = (k, v) := by
  unfold dictInsert at h
  by_cases hc : m.any (fun kv => kv.1 == k)
  · rw [if_pos hc] at h
    obtain ⟨x, hx, he⟩ := List.mem_map.mp h
    by_cases hk : x.1 = k
    · right
      rw [← he, if_pos hk]
    · left
      rw [← he, if_neg hk]
      exact hx
  · rw [if_neg hc] at h
    rcases List.mem_append.mp h with h1 | h1
    · left; exact h1
    · right; simpa using h1

theorem foldl_dictInsert_mem :
    ∀ (pairs acc : List (String × String)) (kv : String × String),
      kv ∈ pairs.foldl (fun m kv => dictInsert m kv.1 kv.2) acc →
      kv ∈ acc ∨ kv ∈ pairs := by
  intro pairs
  induction pairs with
  | nil => intro acc kv h; left; simpa using h
  | cons q pairs ih =>
    intro acc kv h
    rw [List.foldl_cons] at h
    rcases ih (dictInsert acc q.1 q.2) kv h with h1 | h1
    · rcases dictInsert_mem h1 with h2 | h2
      · left; exact h2
      · right; simp [h2]
    · right; simp [h1]

theorem buildDict_mem {pairs : List (String × String)} {kv : String × String}
    (h : kv ∈ buildDict pairs) : kv ∈ pairs := by
  rcases foldl_dictInsert_mem pairs [] kv h with h1 | h1
  · simp at h1
  · exact h1

theorem dictInsert_keys (m : List (String × String)) (k v : String) :
    (dictInsert m k v).map Prod.fst =
      if m.any (fun kv => kv.1 == k) then m.map Prod.fst
      else m.map Prod.fst ++ [k] := by
  unfold dictInsert
  by_cases hc : m.any (fun kv => kv.1 == k)
  · rw [if_pos hc, if_pos hc, List.map_map]
    apply List.map_congr_left
    intro kv _
    by_cases hk : kv.1 = k
    · simp [hk]
    · simp [hk]
  · rw [if_neg hc, if_neg hc]
    simp

theorem dictInsert_keys_nodup {m : List (String × String)} {k v : String}
    (h : (m.map Prod.fst).Nodup) : ((dictInsert m k v).map Prod.fst).Nodup := by
  rw [dictInsert_keys]
  by_cases hc : m.any (fun kv => kv.1 == k)
  · rw [if_pos hc]; exact h
  · rw [if_neg hc]
    have hk : k ∉ m.map Prod.fst := by
      intro hm
      obtain ⟨kv, hkv, he⟩ := List.mem_map.mp hm
      rw [List.any_eq_true] at hc
      exact hc ⟨kv, hkv, by simpa using he⟩
    rw [List.nodup_append]
    refine ⟨h, List.nodup_singleton k, ?_⟩
    intro a ha hb
    rw [List.mem_singleton] at hb
    subst hb
    exact hk ha

theorem foldl_dictInsert_keys_nodup :
    ∀ (pairs acc : List (String × String)), (acc.map Prod.fst).Nodup →
      ((pairs.foldl (fun m kv => dictInsert m kv.1 kv.2) acc).map Prod.fst).Nodup := by
  intro pairs
  induction pairs with
  | nil => intro acc h; simpa using h
  | cons q pairs ih =>
    intro acc h
    rw [List.foldl_cons]
    exact ih (dictInsert acc q.1 q.2) (dictInsert_keys_nodup h)

theorem buildDict_keys_nodup (pairs : List (String × String)) :
    ((buildDict pairs).map Prod.fst).Nodup :=
  foldl_dictInsert_keys_nodup pairs [] (by simp)

theorem lookupD_eq_some {m : List (String × String)} {k v : String}
    (h : lookupD m k = some v) : (k, v) ∈ m := by
  unfold lookupD at h
  obtain ⟨kv, hfind, hv⟩ := Option.map_eq_some'.mp h
  have hm := List.mem_of_find?_eq_some hfind
  have hk := List.find?_some hfind
  simp only [beq_iff_eq] at hk
  have : kv = (k, v) := by
    cases kv
    simp only [Prod.mk.injEq]
    exact ⟨hk, hv⟩
  rw [← this]
  exact hm

theorem lookupD_of_mem_nodup {m : List (String × String)} {k v : String}
    (hnd : (m.map Prod.fst).Nodup) (hm : (k, v) ∈ m) : lookupD m k = some v := by
  have hs : (m.find? (fun kv => kv.1 == k)).isSome := by
    rw [List.find?_isSome]
    exact ⟨(k, v), hm, by simp⟩
  obtain ⟨kv, hkv⟩ := Option.isSome_iff_exists.mp hs
  have hm2 := List.mem_of_find?_eq_some hkv
  have hk2 := List.find?_some hkv
  simp only [beq_iff_eq] at hk2
  have : kv = (k, v) :=
    List.inj_on_of_nodup_map hnd hm2 hm (by simpa using hk2)
  unfold lookupD
  rw [hkv, this]
  rfl

theorem foldl_dictInsert_fresh :
    ∀ (pairs acc : List (String × String)),
      (∀ kv ∈ pairs, acc.any (fun x => x.1 == kv.1) = false) →
      (pairs.map Prod.fst).Nodup →
      pairs.foldl (fun m kv => dictInsert m kv.1 kv.2) acc = acc ++ pairs := by
  intro pairs
  induction pairs with
  | nil => intro acc _ _; simp
  | cons q pairs ih =>
    intro acc hfresh hnd
    rw [List.foldl_cons]
    rw [List.map_cons] at hnd
    obtain ⟨hq1, hnd2⟩ := List.nodup_cons.mp hnd
    have hany : acc.any (fun x => x.1 == q.1) = false := hfresh q (by simp)
    have hq : dictInsert acc q.1 q.2 = acc ++ [q] := by
      unfold dictInsert
      rw [hany]
      simp
    rw [hq]
    have hfresh2 : ∀ kv ∈ pairs, (acc ++ [q]).any (fun x => x.1 == kv.1) = false := by
      intro kv hkv
      rw [List.any_append]
      have h1 := hfresh kv (by simp [hkv])
      have h2 : q.1 ≠ kv.1 := by
        intro he
        exact hq1 (by
          rw [he]
          exact List.mem_map.mpr ⟨kv, hkv, rfl⟩)
      simp [h1, h2]
    rw [ih (acc ++ [q]) hfresh2 hnd2]
    simp

theorem buildDict_eq_self {pairs : List (String × String)}
    (hnd : (pairs.map Prod.fst).Nodup) : buildDict pairs = pairs := by
  unfold buildDict
  rw [foldl_dictInsert_fresh pairs [] (by intro kv _; simp) hnd]
  simp

/-! ### Closed form of the Papaya CSV-update loop -/

theorem papayaApply_key (r : Record) (p? : Option String) (now : String) :
    (papayaApply r p? now).order_id = r.order_id := by
  cases p? <;> rfl

theorem applyUpdRec_key (r : Record) (u : Updates) (now : String) :
    (applyUpdRec r u now).order_id = r.order_id := rfl

theorem sortedKeys_map_preserve {L : List Record} {f : Record → Record}
    (hf : ∀ r, (f r).order_id = r.order_id) (h : SortedKeys L) :
    SortedKeys (L.map f) := by
  refine List.pairwise_map.mpr (h.imp ?_)
  intro a b hab
  unfold recLT at hab ⊢
  rw [hf, hf]
  exact hab

theorem papayaUpdateLedger_cons (o2p : List (String × String)) (now : String)
    (L : List Record) (a : String) (ids : List String) :
    papayaUpdateLedger o2p now L (a :: ids) =
      papayaUpdateLedger o2p now
        (if hasKey L a then
          L.map (fun r => if r.order_id = a then papayaApply r (lookupD o2p a) now else r)
         else L) ids := rfl

theorem papayaUpdateLedger_map (o2p : List (String × String)) (now : String) :
    ∀ (ids : List String) (L : List Record), ids.Nodup →
      papayaUpdateLedger o2p now L ids =
        L.map (fun r =>
          if r.order_id ∈ ids then papayaApply r (lookupD o2p r.order_id) now else r) := by
  intro ids
  induction ids with
  | nil =>
    intro L _
    unfold papayaUpdateLedger
    rw [List.foldl_nil]
    have h1 : L.map (fun r =>
        if r.order_id ∈ ([] : List String) then papayaApply r (lookupD o2p r.order_id) now
        else r) = L.map (fun r => r) := by
      apply List.map_congr_left
      intro r _
      simp
    rw [h1, List.map_id']
  | cons a ids ih =>
    intro L hnd
    obtain ⟨ha, hnd2⟩ := List.nodup_cons.mp hnd
    rw [papayaUpdateLedger_cons]
    have hstep : (if hasKey L a then
        L.map (fun r => if r.order_id = a then papayaApply r (lookupD o2p a) now else r)
        else L) =
        L.map (fun r => if r.order_id = a then papayaApply r (lookupD o2p a) now else r) := by
      by_cases hk : hasKey L a
      · rw [if_pos hk]
      · rw [if_neg hk]
        have h1 : L.map (fun r =>
            if r.order_id = a then papayaApply r (lookupD o2p a) now else r) =
            L.map (fun r => r) := by
          apply List.map_congr_left
          intro r hr
          rw [if_neg]
          intro he
          exact hk ((hasKey_iff L a).mpr (List.mem_map.mpr ⟨r, hr, he⟩))
        rw [h1, List.map_id']
    rw [hstep, ih _ hnd2, List.map_map]
    apply List.map_congr_left
    intro r hr
    simp only [Function.comp]
    by_cases hra : r.order_id = a
    · rw [if_pos hra]
      have hk2 : (papayaApply r (lookupD o2p a) now).order_id = a := by
        rw [papayaApply_key]
        exact hra
      rw [hk2, if_neg ha, if_pos (by rw [hra]; exact List.mem_cons_self a ids), hra]
    · rw [if_neg hra]
      by_cases hin : r.order_id ∈ ids
      · rw [if_pos hin, if_pos (List.mem_cons_of_mem a hin)]
      · rw [if_neg hin, if_neg (by
          intro hm
          rcases List.mem_cons.mp hm with h1 | h1
          · exact hra h1
          · exact hin h1)]

/-! ### The cancellation loop at the file level -/

/-- The stats update of one loop iteration. -/
def cancelStats (st : Stats) (p : String) (res : Bool × String) : Stats :=
  if res.1 then { st with success := st.success + 1 }
  else { st with failed := st.failed + 1, errors := st.errors ++ [(p, res.2)] }

theorem cancelOneStep_none (api : String → ApiResponse)
    (p2o : List (String × String)) (now : String)
    (st : Stats × Option String × List String) (p : String)
    (hl : lookupD p2o p = none) :
    cancelOneStep api p2o now st p =
      .ok (cancelStats st.1 p (cancelPaymentViaApi (api p)), st.2.1, st.2.2 ++ [p]) := by
  simp only [cancelOneStep, hl]
  rfl

/-- Invariant carried through the `for payment_id in payment_ids` loop:
the current file is a saved ledger with unique, `\r`-free keys in which
every order still marked `requires_cancellation=True` and unattempted has
its cancellation attempt ahead of it — some remaining payment maps back
to its order id. -/
def CancelInv (p2o : List (String × String)) (file : Option String)
    (ps : List String) : Prop :=
  ∃ M, file = some (saveOrders M) ∧ NodupKeys M ∧ CleanKeys M ∧
    ∀ r ∈ M, r.requires_cancellation = some true →
      r.cancellation_attempted = false →
      ∃ p ∈ ps, lookupD p2o p = some r.order_id

theorem cancelOneStep_inv (api : String → ApiResponse)
    (p2o : List (String × String)) (now : String)
    (st : Stats × Option String × List String) (p : String) (ps : List String)
    (hinv : CancelInv p2o st.2.1 (p :: ps)) :
    ∃ st2, cancelOneStep api p2o now st p = .ok st2 ∧
      CancelInv p2o st2.2.1 ps := by
  obtain ⟨M, hf, hnd, hck, hreq⟩ := hinv
  have hckS : CleanKeys (sortRecs M) :=
    fun r hr => hck r ((sortRecs_perm M).mem_iff.mp hr)
  have hload : loadOrders st.2.1 = .ok ((sortRecs M).map trRec) := by
    rw [hf]
    exact loadOrders_saveOrders M hnd hck
  cases hl : lookupD p2o p with
  | none =>
    refine ⟨_, cancelOneStep_none api p2o now st p hl, M, hf, hnd, hck, ?_⟩
    intro r hr h1 h2
    obtain ⟨q, hq, hlq⟩ := hreq r hr h1 h2
    rcases List.mem_cons.mp hq with rfl | hq2
    · rw [hl] at hlq
      exact absurd hlq (by simp)
    · exact ⟨q, hq2, hlq⟩
  | some oid =>
    by_cases hk : hasKey ((sortRecs M).map trRec) oid
    · refine ⟨(cancelStats st.1 p (cancelPaymentViaApi (api p)),
        some (saveOrders (((sortRecs M).map trRec).map (fun r =>
          if r.order_id = oid then
            applyUpdRec r (mkCancelUpd (cancelPaymentViaApi (api p))) now
          else r))),
        st.2.2 ++ [p]), ?_, ?_⟩
      · simp only [cancelOneStep, hl]
        rw [updateOrderInCsv_present st.2.1 oid _ now _ hload hk, ok_bind]
        rfl
      · refine ⟨_, rfl, ?_, ?_, ?_⟩
        · unfold NodupKeys
          rw [ledgerKeys_map_of_preserve _ _ (fun r _ => by
              by_cases h1 : r.order_id = oid
              · rw [if_pos h1, applyUpdRec_key]
              · rw [if_neg h1]),
            ledgerKeys_map_trRec hckS]
          exact nodupKeys_of_perm (sortRecs_perm M) hnd
        · intro r hr
          obtain ⟨r1, hr1, rfl⟩ := List.mem_map.mp hr
          obtain ⟨r2, _, rfl⟩ := List.mem_map.mp hr1
          by_cases h1 : (trRec r2).order_id = oid
          · rw [if_pos h1]
            exact trStr_idem r2.order_id
          · rw [if_neg h1]
            exact trStr_idem r2.order_id
        · intro r hr h1 h2
          obtain ⟨r1, hr1, rfl⟩ := List.mem_map.mp hr
          by_cases hko : r1.order_id = oid
          · exfalso
            rw [if_pos hko] at h2
            exact Bool.noConfusion h2
          · rw [if_neg hko] at h1 h2 ⊢
            obtain ⟨r2, hr2, rfl⟩ := List.mem_map.mp hr1
            have hr2M : r2 ∈ M := (sortRecs_perm M).mem_iff.mp hr2
            obtain ⟨q, hq, hlq⟩ := hreq r2 hr2M h1 h2
            rcases List.mem_cons.mp hq with rfl | hq2
            · exfalso
              rw [hl] at hlq
              apply hko
              show trStr r2.order_id = oid
              rw [hck r2 hr2M]
              exact (Option.some.inj hlq).symm
            · refine ⟨q, hq2, ?_⟩
              show lookupD p2o q = some (trStr r2.order_id)
              rw [hck r2 hr2M]
              exact hlq
    · refine ⟨(cancelStats st.1 p (cancelPaymentViaApi (api p)),
        st.2.1, st.2.2 ++ [p]), ?_, M, hf, hnd, hck, ?_⟩
      · simp only [cancelOneStep, hl]
        rw [updateOrderInCsv_absent st.2.1 oid _ now _ hload (by simpa using hk), ok_bind]
        rfl
      · intro r hr h1 h2
        obtain ⟨q, hq, hlq⟩ := hreq r hr h1 h2
        rcases List.mem_cons.mp hq with rfl | hq2
        · exfalso
          rw [hl] at hlq
          apply hk
          rw [hasKey_iff, ledgerKeys_map_trRec hckS]
          have : r ∈ sortRecs M := (sortRecs_perm M).mem_iff.mpr hr
          rw [Option.some.inj hlq]
          exact List.mem_map.mpr ⟨r, this, rfl⟩
        · exact ⟨q, hq2, hlq⟩

theorem cancelFold_inv (api : String → ApiResponse)
    (p2o : List (String × String)) (now : String) :
    ∀ (ps : List String) (st : Stats × Option String × List String),
      CancelInv p2o st.2.1 ps →
      ∃ st2, ps.foldlM (cancelOneStep api p2o now) st = .ok st2 ∧
        CancelInv p2o st2.2.1 [] := by
  intro ps
  induction ps with
  | nil =>
    intro st hinv
    exact ⟨st, rfl, hinv⟩
  | cons p ps ih =>
    intro st hinv
    obtain ⟨st1, hstep, hinv1⟩ := cancelOneStep_inv api p2o now st p ps hinv
    obtain ⟨st2, hrest, hinv2⟩ := ih st1 hinv1
    refine ⟨st2, ?_, hinv2⟩
    rw [List.foldlM_cons, hstep, ok_bind, hrest]

theorem cancelPayments_inv (api : String → ApiResponse) (file : Option String)
    (pids : List String) (p2o : List (String × String)) (now : String)
    (hinv : CancelInv p2o file pids) :
    ∃ st2, cancelPaymentsViaApi api file pids p2o now = .ok st2 ∧
      CancelInv p2o st2.2.1 [] := by
  unfold cancelPaymentsViaApi
  by_cases hp : pids = []
  · subst hp
    rw [if_pos rfl]
    exact ⟨({ total := 0, success := 0, failed := 0, errors := [] }, file, []), rfl, hinv⟩
  · rw [if_neg hp]
    exact cancelFold_inv api p2o now pids
      ({ total := pids.length, success := 0, failed := 0, errors := [] }, file, []) hinv

/-- When the loop has drained every pending payment, the final file loads
cleanly and its pending set is empty. -/
theorem cancelInv_done {p2o : List (String × String)} {file : Option String}
    (h : CancelInv p2o file []) :
    ∃ M Lfin, file = some (saveOrders M) ∧ loadOrders file = .ok Lfin ∧
      pendingOrders Lfin = [] := by
  obtain ⟨M, hf, hnd, hck, hreq⟩ := h
  refine ⟨M, (sortRecs M).map trRec,
    hf, by rw [hf]; exact loadOrders_saveOrders M hnd hck, ?_⟩
  have hall : ∀ r ∈ (sortRecs M).map trRec, ¬ isPending r = true := by
    intro r hr hp
    obtain ⟨r2, hr2, rfl⟩ := List.mem_map.mp hr
    have hr2M : r2 ∈ M := (sortRecs_perm M).mem_iff.mp hr2
    simp only [isPending, Bool.and_eq_true, Bool.not_eq_true', beq_iff_eq] at hp
    obtain ⟨hatt, hreq2⟩ := hp
    obtain ⟨p, hpmem, _⟩ := hreq r2 hr2M hreq2 hatt
    simp at hpmem
  unfold pendingOrders
  rw [List.filter_eq_nil_iff.mpr hall]
  rfl

/-! ### The order-to-payment dict is injective when payment ids are unique -/

theorem o2p_values_nodup (rows : List PapayaRow)
    (hpay : (rows.map (fun r => r.payment_id)).Nodup) :
    ((buildDict (rows.map (fun r =>
      (r.client_order_id, r.payment_id)))).map Prod.snd).Nodup := by
  have hkeys := buildDict_keys_nodup (rows.map (fun r => (r.client_order_id, r.payment_id)))
  have hpair : (buildDict (rows.map (fun r =>
      (r.client_order_id, r.payment_id)))).Pairwise (fun a b => a.1 ≠ b.1) :=
    List.pairwise_map.mp hkeys
  have hsnd : ((rows.map (fun r => (r.client_order_id, r.payment_id))).map Prod.snd).Nodup := by
    rw [List.map_map]
    exact hpay
  have hval : (buildDict (rows.map (fun r =>
      (r.client_order_id, r.payment_id)))).Pairwise (fun a b => a.2 ≠ b.2) := by
    refine List.Pairwise.imp_of_mem ?_ hpair
    intro a b ha hb hne he2
    have ha2 := buildDict_mem ha
    have hb2 := buildDict_mem hb
    have hab : a = b := List.inj_on_of_nodup_map hsnd ha2 hb2 he2
    exact hne (by rw [hab])
  exact List.pairwise_map.mpr hval

/-! ### One-step characterisations of the pipeline stages -/

theorem getNonCanceled_ok (papaya : List String → List PapayaRow)
    (file : Option String) (orderIds : List String) (now : String)
    (L : List Record) (hne : orderIds ≠ []) (hload : loadOrders file = .ok L) :
    getNonCanceledPayments papaya file orderIds now =
      .ok ((papaya orderIds).map (fun r => r.payment_id),
           buildDict ((papaya orderIds).map (fun r => (r.client_order_id, r.payment_id))),
           some (saveOrders (papayaUpdateLedger
             (buildDict ((papaya orderIds).map (fun r => (r.client_order_id, r.payment_id))))
             now L orderIds))) := by
  simp only [getNonCanceledPayments]
  rw [if_neg hne, hload, ok_bind]

/-- A resume run over a ledger with no pending orders is a read-only
no-op that exits 0. -/
theorem mainRun_resume_no_pending (src : Source) (now : String) (c : String)
    (L : List Record) (hload : loadOrders (some c) = .ok L)
    (hpend : pendingOrders L = []) :
    mainRun src (some c) now = .ok (some c, 0, []) := by
  unfold mainRun
  rw [hload, ok_bind]
  simp [hpend]

/-! ### Claim C6 -/

/-- C6: with an unchanged source (same Magento result, same Papaya query
function, same API), a complete fresh run followed by a second run leaves
the ledger file literally identical and performs no API calls in the
second run: the fresh run drives every seeded order to a state outside
the pending filter, so the second (resume) run takes the
"all orders already processed" branch before doing any work.
Hypotheses: Magento's `SELECT DISTINCT` yields distinct order ids, and
`payment_information.payment_id` is a key, so the rows returned by the
Papaya query carry distinct payment ids. -/
theorem c6_idempotent_rerun (src : Source) (t1 t2 : String)
    (hmag : src.magento.Nodup)
    (hpay : ∀ q, ((src.papaya q).map (fun r => r.payment_id)).Nodup) :
    ∃ f1 e1 c1,
      mainRun src none t1 = .ok (f1, e1, c1) ∧
      mainRun src f1 t2 = .ok (f1, 0, []) := by
  by_cases hids : src.magento = []
  · refine ⟨none, 0, [], ?_, ?_⟩
    · show mainRun src none t1 = .ok (none, 0, [])
      unfold mainRun
      rw [hids]
      rfl
    · show mainRun src none t2 = .ok (none, 0, [])
      unfold mainRun
      rw [hids]
      rfl
  · have hreg : registerOrdersCsv none src.magento t1 =
        some (saveOrders (buildFreshLedger src.magento t1)) := by
      unfold registerOrdersCsv
      rw [if_neg hids]
    have hload1 : loadOrders (some (saveOrders (buildFreshLedger src.magento t1))) =
        .ok (((sortRecs (buildFreshLedger src.magento t1)).map trRec).foldl insertRec []) :=
      loadOrders_saveOrders_raw _
    set L1 := ((sortRecs (buildFreshLedger src.magento t1)).map trRec).foldl
      insertRec [] with hL1
    have hnd1 : NodupKeys L1 := loadOrders_nodupKeys hload1
    have hL1mem : ∀ r ∈ L1, trStr r.order_id = r.order_id ∧
        r.requires_cancellation = none ∧ r.cancellation_attempted = false := by
      intro r hr
      rw [hL1] at hr
      rcases foldl_insertRec_mem _ [] r hr with h | h
      · simp at h
      · obtain ⟨r0, hr0, rfl⟩ := List.mem_map.mp h
        have hrB : r0 ∈ buildFreshLedger src.magento t1 :=
          (sortRecs_perm _).mem_iff.mp hr0
        obtain ⟨id, _, rfl⟩ := buildFreshLedger_mem hrB
        exact ⟨trStr_idem id, rfl, rfl⟩
    set rows := src.papaya src.magento with hrows
    set pids := rows.map (fun r => r.payment_id) with hpids
    set o2p := buildDict (rows.map (fun r => (r.client_order_id, r.payment_id))) with ho2p
    set p2o := buildDict (o2p.map (fun kv => (kv.2, kv.1))) with hp2o
    have hget := getNonCanceled_ok src.papaya
      (some (saveOrders (buildFreshLedger src.magento t1)))
      src.magento t1 L1 hids hload1
    set M2 := papayaUpdateLedger o2p t1 L1 src.magento with hM2
    have hM2eq : M2 = L1.map (fun r =>
        if r.order_id ∈ src.magento then
          papayaApply r (lookupD o2p r.order_id) t1 else r) :=
      papayaUpdateLedger_map o2p t1 src.magento L1 hmag
    have hinv : CancelInv p2o (some (saveOrders M2)) pids := by
      refine ⟨M2, rfl, ?_, ?_, ?_⟩
      · unfold NodupKeys
        rw [hM2eq, ledgerKeys_map_of_preserve _ _ (fun r _ => by
          by_cases h1 : r.order_id ∈ src.magento
          · rw [if_pos h1, papayaApply_key]
          · rw [if_neg h1])]
        exact hnd1
      · intro r hr
        rw [hM2eq] at hr
        obtain ⟨r0, hr0, rfl⟩ := List.mem_map.mp hr
        by_cases h1 : r0.order_id ∈ src.magento
        · rw [if_pos h1]
          show trStr (papayaApply r0 (lookupD o2p r0.order_id) t1).order_id =
            (papayaApply r0 (lookupD o2p r0.order_id) t1).order_id
          rw [papayaApply_key]
          exact (hL1mem r0 hr0).1
        · rw [if_neg h1]
          exact (hL1mem r0 hr0).1
      · intro r hr hreq hatt
        rw [hM2eq] at hr
        obtain ⟨r0, hr0, rfl⟩ := List.mem_map.mp hr
        by_cases h1 : r0.order_id ∈ src.magento
        · rw [if_pos h1] at hreq hatt ⊢
          cases hlk : lookupD o2p r0.order_id with
          | none =>
            rw [hlk] at hreq
            simp [papayaApply] at hreq
          | some pp =>
            rw [papayaApply_key]
            refine ⟨pp, ?_, ?_⟩
            · have hmem1 : (r0.order_id, pp) ∈ o2p := lookupD_eq_some hlk
              have hmem2 := buildDict_mem hmem1
              obtain ⟨row, hrow, he⟩ := List.mem_map.mp hmem2
              rw [Prod.mk.injEq] at he
              rw [hpids]
              exact List.mem_map.mpr ⟨row, hrow, he.2⟩
            · have hvals : (o2p.map Prod.snd).Nodup := by
                rw [ho2p, hrows]
                exact o2p_values_nodup (src.papaya src.magento) (hpay src.magento)
              have hmemswap : (pp, r0.order_id) ∈ o2p.map (fun kv => (kv.2, kv.1)) :=
                List.mem_map.mpr ⟨(r0.order_id, pp), lookupD_eq_some hlk, rfl⟩
              have hkeysswap : ((o2p.map (fun kv => (kv.2, kv.1))).map Prod.fst).Nodup := by
                rw [List.map_map]
                have hcomp : (Prod.fst ∘ fun kv : String × String => (kv.2, kv.1)) =
                    Prod.snd := rfl
                rw [hcomp]
                exact hvals
              rw [hp2o, buildDict_eq_self hkeysswap]
              exact lookupD_of_mem_nodup hkeysswap hmemswap
        · rw [if_neg h1] at hreq
          rw [(hL1mem r0 hr0).2.1] at hreq
          exact Option.noConfusion hreq
    obtain ⟨st2, hcan, hfin⟩ := cancelPayments_inv src.api (some (saveOrders M2))
      pids p2o t1 hinv
    obtain ⟨Mfin, Lfin, hf1, hloadF, hpendF⟩ := cancelInv_done hfin
    refine ⟨st2.2.1, (if countFailed Lfin > 0 then 1 else 0), st2.2.2, ?_, ?_⟩
    · unfold mainRun
      rw [hreg, hget]
      simp only [ok_bind]
      rw [hcan]
      simp only [ok_bind]
      rw [hloadF]
      simp only [ok_bind]
    · rw [hf1] at hloadF ⊢
      exact mainRun_resume_no_pending src t2 (saveOrders Mfin) Lfin hloadF hpendF


/-- A small concrete source: two canceled orders, one with a pending
payment, an API that accepts the cancellation. -/
def exSrc2 : Source :=
  { magento := ["A", "B"],
    papaya := fun q =>
      if "A" ∈ q then [{ payment_id := "p1", client_order_id := "A" }] else [],
    api := fun _ => .http 200 none "" }

/-- Witness for C6 on `exSrc2`. -/
theorem c6_idempotent_rerun_witness :
    ∃ f1 e1 c1,
      mainRun exSrc2 none "t1" = .ok (f1, e1, c1) ∧
      mainRun exSrc2 f1 "t2" = .ok (f1, 0, []) :=
  c6_idempotent_rerun exSrc2 "t1" "t2" (by decide) (by
    intro q
    by_cases hq : "A" ∈ q
    · simp [exSrc2, hq]
    · simp [exSrc2, hq])

/-! ### Claim C7 -/

theorem string_append_ne_empty (s t : String) (hs : s ≠ "") : s ++ t ≠ "" := by
  intro h
  apply hs
  rw [String.ext_iff] at h ⊢
  rw [String.data_append] at h
  have h2 := List.append_eq_nil.mp (by simpa using h)
  simpa using h2.1

/-- Every failure outcome of `cancel_payment_via_api` carries a non-empty
message. -/
theorem cpv_failure_msg_ne (resp : ApiResponse)
    (h : (cancelPaymentViaApi resp).1 = false) :
    (cancelPaymentViaApi resp).2 ≠ "" := by
  cases resp with
  | http status jsonBody text =>
    by_cases hs : status = 200
    · simp only [cancelPaymentViaApi, if_pos hs] at h
      exact Bool.noConfusion h
    · simp only [cancelPaymentViaApi, if_neg hs]
      apply string_append_ne_empty
      apply string_append_ne_empty
      apply string_append_ne_empty
      decide
  | timeout => decide
  | requestError e =>
    show ((false, "Request error: " ++ e) : Bool × String).2 ≠ ""
    apply string_append_ne_empty
    decide

/-- `status = Failed` implies a non-empty error detail, for every record of
a ledger. -/
def ErrInv (L : List Record) : Prop :=
  ∀ r ∈ L, r.cancellation_status = "FAILED" → r.error_message ≠ ""

theorem errInv_of_perm {L L2 : List Record} (h : List.Perm L L2)
    (hi : ErrInv L2) : ErrInv L :=
  fun r hr => hi r (h.mem_iff.mp hr)

/-- Every ledger loadable from a file satisfies the invariant. -/
def FileInv (f : Option String) : Prop :=
  ∀ L, loadOrders f = .ok L → ErrInv L

/-- Saving any ledger whose `FAILED` records carry a non-empty message
yields a file whose every load satisfies the invariant: the status column
holds no `\r`, so a loaded `FAILED` was stored as `FAILED`, and newline
translation never empties a non-empty message. -/
theorem fileInv_save {M : List Record} (hi : ErrInv M) :
    FileInv (some (saveOrders M)) := by
  intro L hL
  rw [loadOrders_saveOrders_raw M] at hL
  cases hL
  intro r hr hst
  have hr2 : r ∈ (sortRecs M).map trRec := by
    rcases foldl_insertRec_mem _ [] r hr with h | h
    · simp at h
    · exact h
  obtain ⟨r0, hr0, rfl⟩ := List.mem_map.mp hr2
  have hr0M : r0 ∈ M := (sortRecs_perm M).mem_iff.mp hr0
  have hst0 : r0.cancellation_status = "FAILED" :=
    trStr_eq_of_no_lf hst (by decide)
  exact trStr_ne_empty (hi r0 hr0M hst0)

theorem fileInv_none : FileInv none := by
  intro L hL
  cases hL
  intro r hr
  simp at hr

theorem registerOrdersCsv_fileInv (file : Option String) (ids : List String)
    (now : String) (hf : FileInv file) :
    FileInv (registerOrdersCsv file ids now) := by
  unfold registerOrdersCsv
  by_cases h : ids = []
  · rw [if_pos h]
    exact hf
  · rw [if_neg h]
    apply fileInv_save
    intro r hr hst
    obtain ⟨id, _, rfl⟩ := buildFreshLedger_mem hr
    simp [freshRecord] at hst

theorem papayaUpdateLedger_keys (o2p : List (String × String)) (now : String) :
    ∀ (ids : List String) (L : List Record),
      ledgerKeys (papayaUpdateLedger o2p now L ids) = ledgerKeys L := by
  intro ids
  induction ids with
  | nil => intro L; rfl
  | cons a ids ih =>
    intro L
    rw [papayaUpdateLedger_cons]
    by_cases hk : hasKey L a
    · rw [if_pos hk, ih]
      apply ledgerKeys_map_of_preserve
      intro r _
      by_cases hr : r.order_id = a
      · rw [if_pos hr, papayaApply_key]
      · rw [if_neg hr]
    · rw [if_neg hk, ih]

theorem errInv_papayaUpdate (o2p : List (String × String)) (now : String) :
    ∀ (ids : List String) (L : List Record), ErrInv L →
      ErrInv (papayaUpdateLedger o2p now L ids) := by
  intro ids
  induction ids with
  | nil => intro L h; exact h
  | cons a ids ih =>
    intro L h
    rw [papayaUpdateLedger_cons]
    by_cases hk : hasKey L a
    · rw [if_pos hk]
      apply ih
      intro r hr hst
      obtain ⟨r0, hr0, rfl⟩ := List.mem_map.mp hr
      by_cases hra : r0.order_id = a
      · rw [if_pos hra] at hst ⊢
        cases hlk : lookupD o2p a with
        | none =>
          rw [hlk] at hst
          simp [papayaApply] at hst
        | some p =>
          rw [hlk] at hst
          simp [papayaApply] at hst
      · rw [if_neg hra] at hst ⊢
        exact h r0 hr0 hst
    · rw [if_neg hk]
      exact ih L h

theorem getNonCanceled_fileInv {papaya : List String → List PapayaRow}
    {file : Option String} {orderIds : List String} {now : String}
    {r2 : List String × List (String × String) × Option String}
    (h : getNonCanceledPayments papaya file orderIds now = .ok r2)
    (hf : FileInv file) : FileInv r2.2.2 := by
  unfold getNonCanceledPayments at h
  by_cases hne : orderIds = []
  · rw [if_pos hne] at h
    injection h with h2
    subst h2
    exact hf
  · rw [if_neg hne] at h
    simp only [bind_eq_ok] at h
    obtain ⟨L, hL, hfin⟩ := h
    injection hfin with h2
    subst h2
    exact fileInv_save (errInv_papayaUpdate _ _ _ _ (hf L hL))

theorem applyUpd_errInv {L : List Record} {id : String} {u : Updates}
    {now : String} (hi : ErrInv L)
    (hu : ∀ r : Record, (r.cancellation_status = "FAILED" → r.error_message ≠ "") →
      (applyUpdRec r u now).cancellation_status = "FAILED" →
      (applyUpdRec r u now).error_message ≠ "") :
    ErrInv (L.map (fun r => if r.order_id = id then applyUpdRec r u now else r)) := by
  intro r hr hst
  obtain ⟨r0, hr0, rfl⟩ := List.mem_map.mp hr
  by_cases hid : r0.order_id = id
  · rw [if_pos hid] at hst ⊢
    exact hu r0 (hi r0 hr0) hst
  · rw [if_neg hid] at hst ⊢
    exact hi r0 hr0 hst

theorem updateOrderInCsv_fileInv {file : Option String} {id : String}
    {u : Updates} {now : String} {f2 : Option String}
    (h : updateOrderInCsv file id u now = .ok f2) (hf : FileInv file)
    (hu : ∀ r : Record, (r.cancellation_status = "FAILED" → r.error_message ≠ "") →
      (applyUpdRec r u now).cancellation_status = "FAILED" →
      (applyUpdRec r u now).error_message ≠ "") :
    FileInv f2 := by
  unfold updateOrderInCsv at h
  simp only [bind_eq_ok] at h
  obtain ⟨L, hL, hif⟩ := h
  by_cases hk : hasKey L id
  · rw [if_pos hk] at hif
    injection hif with h2
    subst h2
    exact fileInv_save (applyUpd_errInv (hf L hL) hu)
  · rw [if_neg hk] at hif
    injection hif with h2
    subst h2
    exact hf

theorem mkCancelUpd_preserve (res : Bool × String)
    (hres : res.1 = false → res.2 ≠ "") (now : String) (r : Record)
    (hr : r.cancellation_status = "FAILED" → r.error_message ≠ "")
    (hst : (applyUpdRec r (mkCancelUpd res) now).cancellation_status = "FAILED") :
    (applyUpdRec r (mkCancelUpd res) now).error_message ≠ "" := by
  simp only [applyUpdRec, mkCancelUpd, Option.getD_some] at hst ⊢
  by_cases hb : res.1 = true
  · rw [if_pos hb] at hst
    exact absurd hst (by decide)
  · rw [if_neg hb]
    exact hres (by simpa using hb)

theorem cancelOneStep_fileInv {api : String → ApiResponse}
    {p2o : List (String × String)} {now : String}
    {st st2 : Stats × Option String × List String} {p : String}
    (h : cancelOneStep api p2o now st p = .ok st2) (hf : FileInv st.2.1) :
    FileInv st2.2.1 := by
  cases hl : lookupD p2o p with
  | none =>
    rw [cancelOneStep_none api p2o now st p hl] at h
    injection h with h2
    subst h2
    exact hf
  | some oid =>
    simp only [cancelOneStep, hl] at h
    simp only [bind_eq_ok] at h
    obtain ⟨f2, hupd, hpure⟩ := h
    injection hpure with h2
    subst h2
    exact updateOrderInCsv_fileInv hupd hf
      (mkCancelUpd_preserve _ (cpv_failure_msg_ne (api p)) now)

theorem cancelFold_fileInv {api : String → ApiResponse}
    {p2o : List (String × String)} {now : String} :
    ∀ (pids : List String) (st st2 : Stats × Option String × List String),
      pids.foldlM (cancelOneStep api p2o now) st = .ok st2 →
      FileInv st.2.1 → FileInv st2.2.1 := by
  intro pids
  induction pids with
  | nil =>
    intro st st2 h hf
    simp only [List.foldlM_nil] at h
    injection h with h2
    subst h2
    exact hf
  | cons p pids ih =>
    intro st st2 h hf
    simp only [List.foldlM_cons] at h
    simp only [bind_eq_ok] at h
    obtain ⟨mid, hstep, hrest⟩ := h
    exact ih mid st2 hrest (cancelOneStep_fileInv hstep hf)

theorem cancelPayments_fileInv {api : String → ApiResponse}
    {file : Option String} {pids : List String}
    {p2o : List (String × String)} {now : String}
    {st2 : Stats × Option String × List String}
    (h : cancelPaymentsViaApi api file pids p2o now = .ok st2)
    (hf : FileInv file) : FileInv st2.2.1 := by
  unfold cancelPaymentsViaApi at h
  by_cases hne : pids = []
  · rw [if_pos hne] at h
    injection h with h2
    subst h2
    exact hf
  · rw [if_neg hne] at h
    exact cancelFold_fileInv pids _ st2 h hf

/-- C7: every failure outcome of a cancellation attempt carries a non-empty
error detail, and the ledger invariant "status FAILED implies non-empty
error_message" is preserved by every complete run of the pipeline: if the
input file satisfies it, so does the file left behind by `main`. -/
theorem c7_failed_implies_error_detail :
    (∀ resp : ApiResponse, (cancelPaymentViaApi resp).1 = false →
      (cancelPaymentViaApi resp).2 ≠ "") ∧
    (∀ (src : Source) (file : Option String) (now : String)
       (f : Option String) (e : Nat) (calls : List String),
       mainRun src file now = .ok (f, e, calls) →
       FileInv file → FileInv f) := by
  refine ⟨cpv_failure_msg_ne, ?_⟩
  intro src file now f e calls hrun hfile
  cases file with
  | none =>
    unfold mainRun at hrun
    simp only [bind_eq_ok] at hrun
    obtain ⟨r2, h2, r3, h3, L3, hL3, hfin⟩ := hrun
    injection hfin with hfin
    have hfeq : r3.2.1 = f := congrArg Prod.fst hfin
    rw [← hfeq]
    exact cancelPayments_fileInv h3
      (getNonCanceled_fileInv h2
        (registerOrdersCsv_fileInv none src.magento now fileInv_none))
  | some c =>
    unfold mainRun at hrun
    simp only [bind_eq_ok] at hrun
    obtain ⟨L0, hL0, hrest⟩ := hrun
    by_cases hp : pendingOrders L0 = []
    · rw [if_pos hp] at hrest
      injection hrest with hfin
      have hfeq : (some c : Option String) = f := congrArg Prod.fst hfin
      rw [← hfeq]
      exact hfile
    · rw [if_neg hp] at hrest
      simp only [bind_eq_ok] at hrest
      obtain ⟨r2, h2, r3, h3, L3, hL3, hfin⟩ := hrest
      injection hfin with hfin
      have hfeq : r3.2.1 = f := congrArg Prod.fst hfin
      rw [← hfeq]
      exact cancelPayments_fileInv h3 (getNonCanceled_fileInv h2 hfile)

/-- Witness for C7: applied to the timeout response, and to a fresh run of
the empty source, whose empty input file satisfies the invariant. -/
theorem c7_failed_implies_error_detail_witness :
    (cancelPaymentViaApi .timeout).2 ≠ "" ∧ FileInv none :=
  ⟨c7_failed_implies_error_detail.1 .timeout rfl,
   c7_failed_implies_error_detail.2 exSrc none "t0" none 0 [] rfl fileInv_none⟩

end CancelPayments
